import Mathlib

/-!
# squ1dlang2: the native-function table, the keyword table and the driver loop

A shallow embedding of `evaluator/builtins.go`, `token/token.go` and
`repl/repl.go`.  Go values of interface type `object.Object` become the
inductive type `Object`; a native's side effects (console output, console
input, the random source, the environment it receives) are threaded through
an explicit `World`.  Go's `int` is taken to be 64 bits wide.  Functions of
the Go standard library the natives call (`strconv.ParseInt`,
`utf8.RuneCountInString`, `strings.Fields`, `strings.TrimSpace`, `rand.Intn`,
`bufio.Reader.ReadString`) are embedded from their Go sources or documented
behaviour.  The lexer, the parser, the evaluator and the method `Inspect`,
which the driver and `write` call and these files do not define, are
parameters.
-/

namespace Squ1d

/-! ## Runtime object model (package `object`) -/

/-- Modelled from the spec: the kind tags of package `object` (its source is
not among the files); one tag per Runtime Object variant of the data model,
named after the constant `ARRAY_OBJ` the natives compare against. -/
inductive ObjectType
  | INTEGER_OBJ | BOOLEAN_OBJ | NULL_OBJ | RETURN_VALUE_OBJ | ERROR_OBJ
  | FUNCTION_OBJ | STRING_OBJ | BUILTIN_OBJ | ARRAY_OBJ | HASH_OBJ
  deriving DecidableEq, Repr

/-- The two causes `strconv.ErrSyntax` and `strconv.ErrRange`. -/
inductive NumErrCause
  | ErrSyntax | ErrRange
  deriving DecidableEq, Repr

/-- The record `strconv.NumError`: the failing function, the input (a Go
string, as its bytes) and the cause. -/
structure NumError where
  Func : String
  Num : List Nat
  Err : NumErrCause
  deriving DecidableEq, Repr

/-- Errors of the Go standard library that the natives render with
`err.Error()`: a `strconv.NumError`, and the reader's end-of-input. -/
inductive GoError
  | num (e : NumError)
  | EOF
  deriving DecidableEq, Repr

/-- One operand of a `fmt.Sprintf` call made through `newError`. -/
inductive FmtArg
  | int (n : Int)
  | objType (t : ObjectType)
  | err (e : GoError)
  deriving DecidableEq, Repr

/-- The body of a function literal; the natives never look inside it. -/
structure BlockStatement where
  source : String
  deriving DecidableEq, Repr

/-- Modelled from the spec: the Runtime Object union of package `object`
(its source is not among the files).  A `String` is a sequence of Unicode
code points; a `Function` holds a reference to its captured environment; a
`Builtin` is a handle identified by its name in the native table; an `Error`
keeps the format string and operands handed to `newError`. -/
inductive Object
  | Integer (Value : Int)
  | Boolean (Value : Bool)
  | String (Value : String)
  | Array (Elements : List Object)
  | Hash (Pairs : List (Object × Object))
  | Function (Parameters : List String) (Body : BlockStatement) (Env : Nat)
  | Builtin (name : String)
  | Error (format : String) (operands : List FmtArg)
  | ReturnValue (Value : Object)
  | Null

/-- Modelled from the spec: `Object.Type()` of package `object`, the kind tag
of a runtime value. -/
def Object.Type : Object → ObjectType
  | .Integer _ => .INTEGER_OBJ
  | .Boolean _ => .BOOLEAN_OBJ
  | .String _ => .STRING_OBJ
  | .Array _ => .ARRAY_OBJ
  | .Hash _ => .HASH_OBJ
  | .Function _ _ _ => .FUNCTION_OBJ
  | .Builtin _ => .BUILTIN_OBJ
  | .Error _ _ => .ERROR_OBJ
  | .ReturnValue _ => .RETURN_VALUE_OBJ
  | .Null => .NULL_OBJ

/-- Recogniser of Error values. -/
def Object.isError : Object → Bool
  | .Error _ _ => true
  | _ => false

/-- The evaluator's shared `NULL` object. -/
def NULL : Object := Object.Null

/-- Modelled from the spec: `newError(format, a...)` of the evaluator (not
among the files) builds the Error value for a format and its operands. -/
def newError (format : String) (a : List FmtArg) : Object :=
  Object.Error format a

/-- Modelled from the spec: `object.Environment` (its source is not among the
files): a name-to-value store plus an optional enclosing environment. -/
inductive Environment
  | mk (store : List (String × Object)) (outer : Option Environment)

/-- Modelled from the spec: `define(name, value)` inserts or overwrites in the
current scope only. -/
def Environment.Set : Environment → String → Object → Environment
  | .mk store outer, name, val =>
    .mk ((name, val) :: store.filter (fun p => p.1 != name)) outer

/-- Lookup in one store of an environment. -/
def storeGet : List (String × Object) → String → Option Object
  | [], _ => none
  | (k, v) :: rest, name => if k = name then some v else storeGet rest name

/-- Modelled from the spec: `resolve(name)` walks outward through the
enclosing environments until the name is found or the chain is exhausted. -/
def Environment.Get : Environment → String → Option Object
  | .mk store none, name => storeGet store name
  | .mk store (some outer), name =>
    match storeGet store name with
    | some v => some v
    | none => outer.Get name

/-! ## The world a native runs in -/

/-- Everything a native can touch besides its arguments: the environment it
is handed, the bytes printed so far, the pending console input (one entry per
chunk a read of standard input returns), and the random source (what decides
the answer of each call made to it, and the number of calls made so far). -/
structure World where
  env : Environment
  stdout : String
  stdin : List String
  randDraws : Nat → Nat
  randPos : Nat

/-- How a call of a native ends: with a runtime value, with Go's bare `nil`
(the no-output sentinel), or with a run-time panic. -/
inductive Outcome
  | ret (o : Object)
  | retNil
  | panic (msg : String)

/-- The call returned an Error value. -/
def Outcome.isErrorValue : Outcome → Bool
  | .ret o => o.isError
  | _ => false

/-- The type `object.BuiltinFunction`, with the world made explicit. -/
abbrev BuiltinFunction := World → List Object → Outcome × World

/-! ## Go slices of interface values -/

/-- The backing arrays of the slices alive during a call, by address; a slot
holds a value or the nil interface. -/
abbrev SliceHeap := List (List (Option Object))

/-- A slice header: the address of its backing array and its length. -/
structure Slice where
  addr : Nat
  len : Nat

/-- The elements a slice denotes. -/
def SliceHeap.elems (h : SliceHeap) (s : Slice) : List (Option Object) :=
  (h.getD s.addr []).take s.len

/-- The call `make([]object.Object, n)`: a fresh backing array of `n` nil
interface values. -/
def SliceHeap.make (h : SliceHeap) (n : Nat) : SliceHeap × Slice :=
  (h ++ [List.replicate n none], ⟨h.length, n⟩)

/-- The builtin `copy(dst, src)`: overwrites the first
`min(len(dst), len(src))` slots of the backing array of `dst`. -/
def SliceHeap.copy (h : SliceHeap) (dst src : Slice) : SliceHeap :=
  let n := min dst.len src.len
  h.set dst.addr ((h.elems src).take n ++ (h.getD dst.addr []).drop n)

/-- The assignment `s[i] = v`; `none` is the index-out-of-range panic. -/
def SliceHeap.store (h : SliceHeap) (s : Slice) (i : Nat) (v : Object) : Option SliceHeap :=
  if i < s.len then some (h.set s.addr ((h.getD s.addr []).set i (some v))) else none

/-- A slice all of whose slots hold a value, as a sequence of values. -/
def allValues : List (Option Object) → Option (List Object)
  | [] => some []
  | none :: _ => none
  | some o :: rest => (allValues rest).map (fun os => o :: os)

/-! ## `builtins["add"]` -/

/-- The statements of `add` after its guards, run on the slice memory `h` in
which `arr.Elements` is the slice `arrElements`:
`length := len(arr.Elements); newElements := make(.., length+1);
copy(newElements, arr.Elements); newElements[length] = args[1]`.
The result is the memory afterwards and the slice `newElements`. -/
def addStmts (h : SliceHeap) (arrElements : Slice) (arg1 : Object) :
    Option (SliceHeap × Slice) :=
  let length := arrElements.len
  let (h, newElements) := h.make (length + 1)
  let h := h.copy newElements arrElements
  match h.store newElements length arg1 with
  | none => none
  | some h => some (h, newElements)

/-- The native `add`.  The elements of the argument are laid out as the one
slice of an otherwise empty memory; the Array returned holds the elements of
`newElements` (a slot left nil has no counterpart among the runtime values). -/
def Builtins.add : BuiltinFunction := fun w args =>
  match args with
  | [arg0, arg1] =>
    if arg0.Type ≠ ObjectType.ARRAY_OBJ then
      (.ret (newError "Argument to `add` must be ARRAY, got %s" [.objType arg0.Type]), w)
    else
      match arg0 with
      | .Array elements =>
        match addStmts [elements.map some] ⟨0, elements.length⟩ arg1 with
        | none => (.panic "index out of range", w)
        | some (h, newElements) =>
          match allValues (h.elems newElements) with
          | some es => (.ret (Object.Array es), w)
          | none => (.panic "nil element in array", w)
      | _ => (.panic "interface conversion", w)
  | _ => (.ret (newError "Wrong number of arguments. Got %d, expected 2" [.int args.length]), w)

/-! ## Machine integers -/

/-- A value of Go's `int64` (and of `int`, taken to be 64 bits wide). -/
def isInt64 (x : Int) : Prop := -(2 : Int) ^ 63 ≤ x ∧ x < (2 : Int) ^ 63

instance (x : Int) : Decidable (isInt64 x) := by unfold isInt64; infer_instance

/-- Two's-complement wrap-around of an exact result into 64 bits, as Go's
`+` and `-` on `int64` and `int` perform it. -/
def wrapInt64 (x : Int) : Int := (x + (2 : Int) ^ 63) % (2 : Int) ^ 64 - (2 : Int) ^ 63

/-! ## `builtins["rand"]` -/

/-- The call `rand.Intn(n)` of package `math/rand`, by its documented
contract: it panics when `n <= 0`, and otherwise returns a value of `[0, n)`.
The generator behind it is not embedded (the top-level source is seeded when
the process starts, and `Intn` may take several of its outputs for one
answer): `randDraws k` stands for whatever decides the answer of call number
`k`, reduced into `[0, n)`, so every value of the interval is a possible
answer and nothing more is known of it.  Only the panic and the interval are
relied on. -/
def Intn (w : World) (n : Int) : Option Int × World :=
  if n ≤ 0 then (none, w)
  else (some ((w.randDraws w.randPos : Int) % n), { w with randPos := w.randPos + 1 })

/-- The native `rand`. -/
def Builtins.rand : BuiltinFunction := fun w args =>
  match args with
  | [arg0, arg1] =>
    match arg0, arg1 with
    | .Integer min, .Integer max =>
      if min ≥ max then
        (.ret (newError "First argument must be less than second argument" []), w)
      else
        let rangeInt := wrapInt64 (max - min)
        match Intn w rangeInt with
        | (none, w1) => (.panic "invalid argument to Intn", w1)
        | (some r, w1) =>
          let randNum := wrapInt64 (r + min)
          (.ret (Object.Integer randNum), w1)
    | _, _ =>
      (.ret (newError "Wrong argument type, expected integer, got %T" [.objType arg0.Type]), w)
  | _ => (.ret (newError "Wrong number of arguments. Got %d, expected 2" [.int args.length]), w)

/-! ## Package `token` -/

/-- The type `TokenType`, a Go string. -/
abbrev TokenType := String

/-! The token kind constants. -/

def ILLEGAL : TokenType := "ILLEGAL"
def EOF : TokenType := "EOF"
def IDENT : TokenType := "IDENT"
def INT : TokenType := "INT"
def ASSIGN : TokenType := "="
def PLUS : TokenType := "+"
def COMMA : TokenType := ","
def SEMICOLON : TokenType := ";"
def LPAREN : TokenType := "("
def RPAREN : TokenType := ")"
def LBRACE : TokenType := "\x7b"
def RBRACE : TokenType := "\x7d"
def FUNCTION : TokenType := "FUNCTION"
def LET : TokenType := "VAR"
def MINUS : TokenType := "-"
def BANG : TokenType := "!"
def ASTERISK : TokenType := "*"
def SLASH : TokenType := "/"
def LT : TokenType := "<"
def GT : TokenType := ">"
def RETURN : TokenType := "RETURN"
def TRUE : TokenType := "TRUE"
def FALSE : TokenType := "FALSE"
def IF : TokenType := "IF"
def ELSE : TokenType := "ELSE"
def EQ : TokenType := "=="
def NOT_EQ : TokenType := "!="
def STRING : TokenType := "STRING"
def LBRACKET : TokenType := "["
def RBRACKET : TokenType := "]"
def COLON : TokenType := ":"

/-- The map `keywords`, as its list of entries. -/
def keywords : List (String × TokenType) :=
  [("def", FUNCTION), ("var", LET), ("true", TRUE), ("false", FALSE),
   ("if", IF), ("el", ELSE), ("return", RETURN)]

/-- A Go map read `m[key]` with the comma-ok form. -/
def mapLookup (m : List (String × TokenType)) (key : String) : Option TokenType :=
  match m with
  | [] => none
  | (k, v) :: rest => if k = key then some v else mapLookup rest key

/-- The function `LookupIdent`. -/
def LookupIdent (ident : String) : TokenType :=
  match mapLookup keywords ident with
  | some tok => tok
  | none => IDENT

/-! ## Go strings and package `unicode/utf8`

A Go string is a byte sequence; the text a String value holds is kept as its
code points and `stringBytes` gives the bytes Go sees (the UTF-8 encoding).
The shifts and masks of the Go sources are written with `/`, `%` and `+`. -/

/-- UTF-8 encoding of one code point (`utf8.AppendRune`). -/
def encodeRune (r : Nat) : List Nat :=
  if r ≤ 0x7F then [r]
  else if r ≤ 0x7FF then [0xC0 + r / 64, 0x80 + r % 64]
  else if r ≤ 0xFFFF then [0xE0 + r / 4096, 0x80 + r / 64 % 64, 0x80 + r % 64]
  else [0xF0 + r / 262144, 0x80 + r / 4096 % 64, 0x80 + r / 64 % 64, 0x80 + r % 64]

/-- The bytes of a sequence of code points. -/
def bytesOf : List Char → List Nat
  | [] => []
  | c :: cs => encodeRune c.toNat ++ bytesOf cs

/-- The bytes of a Go string holding the given text. -/
def stringBytes (s : String) : List Nat := bytesOf s.data

/-- The constant `utf8.RuneSelf`. -/
def RuneSelf : Nat := 0x80

/-- The constant `locb` of `unicode/utf8`. -/
def locb : Nat := 0x80

/-- The constant `hicb` of `unicode/utf8`. -/
def hicb : Nat := 0xBF

/-- The marker `xx` of the table `first`: an invalid leading byte. -/
def xx : Nat := 0xF1

/-- The table `first` of `unicode/utf8`: information about the first byte of
an encoding (size in the low three bits, accept-range index in the high
four). -/
def first (c : Nat) : Nat :=
  if c < 0x80 then 0xF0
  else if c < 0xC2 then 0xF1
  else if c < 0xE0 then 0x02
  else if c = 0xE0 then 0x13
  else if c < 0xED then 0x03
  else if c = 0xED then 0x23
  else if c < 0xF0 then 0x03
  else if c = 0xF0 then 0x34
  else if c < 0xF4 then 0x04
  else if c = 0xF4 then 0x44
  else 0xF1

/-- The table `acceptRanges` of `unicode/utf8`: bounds `(lo, hi)` for the
second byte. -/
def acceptRanges (k : Nat) : Nat × Nat :=
  match k with
  | 0 => (locb, hicb)
  | 1 => (0xA0, hicb)
  | 2 => (locb, 0x9F)
  | 3 => (0x90, hicb)
  | 4 => (locb, 0x8F)
  | _ => (0, 0)

/-- One turn of the loop of `utf8.RuneCountInString` at byte `c = s[i]` with
the bytes `tl` after it: the amount added to `i`. -/
def runeStep (c : Nat) (tl : List Nat) : Nat :=
  if c < RuneSelf then 1
  else
    let x := first c
    if x = xx then 1
    else
      let size := x % 8
      if size > (c :: tl).length then 1
      else
        let accept := acceptRanges (x / 16)
        let c1 := tl.getD 0 0
        if c1 < accept.1 ∨ accept.2 < c1 then 1
        else if size = 2 then 2
        else
          let c2 := tl.getD 1 0
          if c2 < locb ∨ hicb < c2 then 1
          else if size = 3 then 3
          else
            let c3 := tl.getD 2 0
            if c3 < locb ∨ hicb < c3 then 1 else size

/-- The loop `for i := 0; i < ns; n++` of `utf8.RuneCountInString`, on the
bytes from `i` on; the first argument bounds the number of turns. -/
def runeCountLoop : Nat → List Nat → Nat → Nat
  | 0, _, n => n
  | _ + 1, [], n => n
  | fuel + 1, c :: tl, n => runeCountLoop fuel ((c :: tl).drop (runeStep c tl)) (n + 1)

/-- The function `utf8.RuneCountInString`; each turn of its loop consumes at
least one byte, so `len(s)` turns are enough. -/
def RuneCountInString (s : List Nat) : Nat := runeCountLoop s.length s 0

/-! ## `builtins["cat"]` -/

/-- The native `cat`. -/
def Builtins.cat : BuiltinFunction := fun w args =>
  match args with
  | [arg0] =>
    match arg0 with
    | .Array elements => (.ret (Object.Integer elements.length), w)
    | .String value => (.ret (Object.Integer (RuneCountInString (stringBytes value))), w)
    | _ => (.ret (newError "Argument to `cat` not supported, got %s" [.objType arg0.Type]), w)
  | _ => (.ret (newError "Wrong number of arguments. Got %d, expected 1" [.int args.length]), w)

/-! ## `builtins["first"]`, `builtins["last"]`, `builtins["tp"]` -/

/-- The index expression `s[i]` on a slice: a run-time panic when `i` is out
of range. -/
def indexElem (s : List Object) (i : Nat) (w : World) : Outcome × World :=
  match s[i]? with
  | some e => (.ret e, w)
  | none => (.panic "index out of range", w)

/-- The native `first`. -/
def Builtins.first : BuiltinFunction := fun w args =>
  match args with
  | [arg0] =>
    if arg0.Type ≠ ObjectType.ARRAY_OBJ then
      (.ret (newError "Argument to `first` must be ARRAY, got %s" [.objType arg0.Type]), w)
    else
      match arg0 with
      | .Array elements =>
        if elements.length > 0 then indexElem elements 0 w
        else (.ret NULL, w)
      | _ => (.panic "interface conversion", w)
  | _ => (.ret (newError "Wrong number of arguments. Got %d, expected 1" [.int args.length]), w)

/-- The native `last`. -/
def Builtins.last : BuiltinFunction := fun w args =>
  match args with
  | [arg0] =>
    if arg0.Type ≠ ObjectType.ARRAY_OBJ then
      (.ret (newError "Argument to `last` must be ARRAY, got %s" [.objType arg0.Type]), w)
    else
      match arg0 with
      | .Array elements =>
        let length := elements.length
        if length > 0 then indexElem elements (length - 1) w
        else (.ret NULL, w)
      | _ => (.panic "interface conversion", w)
  | _ => (.ret (newError "Wrong number of arguments. Got %d, expected 1" [.int args.length]), w)

/-- The native `tp`. -/
def Builtins.tp : BuiltinFunction := fun w args =>
  match args with
  | [arg0] =>
    match arg0 with
    | .Array _ => (.ret (Object.String "array"), w)
    | .String _ => (.ret (Object.String "string"), w)
    | .Hash _ => (.ret (Object.String "hash"), w)
    | .Integer _ => (.ret (Object.String "integer"), w)
    | .Boolean _ => (.ret (Object.String "boolean"), w)
    | .Function _ _ _ => (.ret (Object.String "function"), w)
    | _ => (.ret (Object.String "null"), w)
  | _ => (.ret (newError "Wrong number of arguments. Got %d, expected 1" [.int args.length]), w)

/-! ## Package `strconv`: `ParseInt(s, 10, 64)` -/

/-- The constant `maxUint64 = 1<<64 - 1`. -/
def maxUint64 : Nat := 18446744073709551615

/-- The helper `lower(c)` of `strconv`: `c | ('x' - 'X')`. -/
def lower (c : Nat) : Nat := c ||| 32

/-- The `switch` of the loop of `ParseUint` for a base other than 0: the
digit value `d` of byte `c`, or nothing in the `default` case. -/
def digitOfByte (c : Nat) : Option Nat :=
  if 48 ≤ c ∧ c ≤ 57 then some (c - 48)
  else if 97 ≤ lower c ∧ lower c ≤ 122 then some (lower c - 97 + 10)
  else none

/-- The helper `syntaxError` of `strconv`. -/
def syntaxError (fn : String) (str : List Nat) : NumError := ⟨fn, str, .ErrSyntax⟩

/-- The helper `rangeError` of `strconv`. -/
def rangeError (fn : String) (str : List Nat) : NumError := ⟨fn, str, .ErrRange⟩

/-- The loop `for _, c := range []byte(s)` of `ParseUint` with `base = 10` and
`bitSize = 64` (`cutoff = maxUint64/10 + 1`, `maxVal = maxUint64`), from the
accumulator `n` on; `s0` is the whole input, reported in an error. -/
def parseUintLoop (s0 : List Nat) : List Nat → Nat → Nat × Option NumError
  | [], n => (n, none)
  | c :: cs, n =>
    match digitOfByte c with
    | none => (0, some (syntaxError "ParseUint" s0))
    | some d =>
      if d ≥ 10 then (0, some (syntaxError "ParseUint" s0))
      else if n ≥ maxUint64 / 10 + 1 then (maxUint64, some (rangeError "ParseUint" s0))
      else
        let n := n * 10
        let n1 := (n + d) % 18446744073709551616
        if n1 < n ∨ n1 > maxUint64 then (maxUint64, some (rangeError "ParseUint" s0))
        else parseUintLoop s0 cs n1

/-- The call `ParseUint(s, 10, 64)`. -/
def ParseUint (s : List Nat) : Nat × Option NumError :=
  if s = [] then (0, some (syntaxError "ParseUint" s))
  else parseUintLoop s s 0

/-- The end of `ParseInt` with `bitSize = 64`, after the unsigned value `un`
is known: the range checks against `cutoff = 1 << 63` and the conversion
`n := int64(un); if neg { n = -n }`. -/
def parseIntRange (neg : Bool) (un : Nat) (s0 : List Nat) : Int × Option NumError :=
  let cutoff : Nat := 9223372036854775808
  if !neg && decide (un ≥ cutoff) then (cutoff - 1, some (rangeError "ParseInt" s0))
  else if neg && decide (un > cutoff) then (-cutoff, some (rangeError "ParseInt" s0))
  else
    let n := wrapInt64 un
    (if neg then wrapInt64 (-n) else n, none)

/-- The call `strconv.ParseInt(s, 10, 64)` on the bytes of `s`: the value and
the error (`none` for Go's `nil`). -/
def ParseInt (s : List Nat) : Int × Option NumError :=
  match s with
  | [] => (0, some (syntaxError "ParseInt" s))
  | c0 :: tl =>
    let s0 := s
    let neg : Bool := decide (c0 ≠ 43 ∧ c0 = 45)
    let s : List Nat := if c0 = 43 then tl else if c0 = 45 then tl else c0 :: tl
    let (un, err) := ParseUint s
    match err with
    | some e =>
      if e.Err ≠ .ErrRange then (0, some { e with Func := "ParseInt", Num := s0 })
      else parseIntRange neg un s0
    | none => parseIntRange neg un s0

/-! ## `builtins["tpint"]` -/

/-- The native `tpint`. -/
def Builtins.tpint : BuiltinFunction := fun w args =>
  match args with
  | [arg0] =>
    match arg0 with
    | .String value =>
      match ParseInt (stringBytes value) with
      | (_, some err) =>
        (.ret (newError "Failed to convert to integer: %s" [.err (.num err)]), w)
      | (intVal, none) => (.ret (Object.Integer intVal), w)
    | _ => (.ret (newError "Argument must be a string. Got %s" [.objType arg0.Type]), w)
  | _ => (.ret (newError "Wrong number of arguments. Got %d, expected 1" [.int args.length]), w)

/-! ## Base-10 integer literals, as the specification words them -/

/-- A decimal digit, `0` to `9`. -/
def isDecimalDigit (c : Char) : Prop := 48 ≤ c.toNat ∧ c.toNat ≤ 57

instance (c : Char) : Decidable (isDecimalDigit c) := by unfold isDecimalDigit; infer_instance

/-- The value of one decimal digit. -/
def digitValue (c : Char) : Nat :=
  match c with
  | '0' => 0 | '1' => 1 | '2' => 2 | '3' => 3 | '4' => 4
  | '5' => 5 | '6' => 6 | '7' => 7 | '8' => 8 | '9' => 9
  | _ => 0

/-- The number a sequence of decimal digits denotes, most significant digit
first, continuing from `acc`. -/
def digitsValue (acc : Nat) : List Char → Nat
  | [] => acc
  | c :: cs => digitsValue (acc * 10 + digitValue c) cs

/-- The text `s` is a well-formed base-10 integer literal denoting `n`: an
optional sign, then one or more decimal digits, and nothing else. -/
def IntLiteral (s : String) (n : Int) : Prop :=
  ∃ sign ds : List Char, s.data = sign ++ ds ∧
    (sign = [] ∨ sign = ['+'] ∨ sign = ['-']) ∧
    ds ≠ [] ∧ (∀ c ∈ ds, isDecimalDigit c) ∧
    n = (if sign = ['-'] then -(digitsValue 0 ds : Int) else (digitsValue 0 ds : Int))

/-! ## Packages `unicode` and `strings` -/

/-- The function `unicode.IsSpace`: in Latin-1 the characters tab, line feed,
vertical tab, form feed, carriage return, space, U+0085 and U+00A0; beyond it
the ranges of the `White_Space` table. -/
def IsSpace (r : Char) : Bool :=
  if r.toNat ≤ 0xFF then
    decide (r.toNat = 9 ∨ r.toNat = 10 ∨ r.toNat = 11 ∨ r.toNat = 12 ∨ r.toNat = 13 ∨
      r.toNat = 32 ∨ r.toNat = 0x85 ∨ r.toNat = 0xA0)
  else
    decide (r.toNat = 0x1680 ∨ (0x2000 ≤ r.toNat ∧ r.toNat ≤ 0x200a) ∨
      (0x2028 ≤ r.toNat ∧ r.toNat ≤ 0x2029) ∨ r.toNat = 0x202f ∨ r.toNat = 0x205f ∨
      r.toNat = 0x3000)

/-- The record `span` of `strings.FieldsFunc`: the slice `s[start:end]`. -/
structure Span where
  start : Int
  stop : Int

/-- The loop `for end, rune := range s` of `strings.FieldsFunc`, from the rune
at offset `pos` on, with the spans recorded so far and the variable `start`
(negative: no field is open).  Offsets count code points. -/
def fieldsFuncLoop (f : Char → Bool) : List Char → Int → Int → List Span → List Span × Int
  | [], _, start, spans => (spans, start)
  | rune :: rest, pos, start, spans =>
    if f rune then
      if start ≥ 0 then fieldsFuncLoop f rest (pos + 1) (-start - 1) (spans ++ [⟨start, pos⟩])
      else fieldsFuncLoop f rest (pos + 1) start spans
    else
      if start < 0 then fieldsFuncLoop f rest (pos + 1) pos spans
      else fieldsFuncLoop f rest (pos + 1) start spans

/-- The slice expression `s[start:end]`. -/
def sliceOf (s : List Char) (sp : Span) : List Char :=
  (s.drop sp.start.toNat).take (sp.stop.toNat - sp.start.toNat)

/-- The end of `strings.FieldsFunc`: the last field may end at the end of the
input, and the strings are cut from the recorded spans. -/
def fieldSlices (s : List Char) (spans : List Span) (start : Int) : List (List Char) :=
  let spans := if start ≥ 0 then spans ++ [⟨start, s.length⟩] else spans
  spans.map (sliceOf s)

/-- The function `strings.FieldsFunc`. -/
def FieldsFunc (s : List Char) (f : Char → Bool) : List (List Char) :=
  let (spans, start) := fieldsFuncLoop f s 0 (-1) []
  fieldSlices s spans start

/-- The function `strings.Fields`: `FieldsFunc(s, unicode.IsSpace)` (for a
string of ASCII bytes only Go takes a faster path to the same slice). -/
def Fields (s : String) : List String :=
  (FieldsFunc s.data IsSpace).map String.mk

/-- The function `strings.TrimLeftFunc`. -/
def TrimLeftFunc (s : List Char) (f : Char → Bool) : List Char := s.dropWhile f

/-- The function `strings.TrimRightFunc`. -/
def TrimRightFunc (s : List Char) (f : Char → Bool) : List Char :=
  (s.reverse.dropWhile f).reverse

/-- The function `strings.TrimSpace`: `TrimFunc(s, unicode.IsSpace)`, that is
`TrimRightFunc(TrimLeftFunc(s, f), f)`. -/
def TrimSpace (s : String) : String :=
  String.mk (TrimRightFunc (TrimLeftFunc s.data IsSpace) IsSpace)

/-! ## `builtins["sepr"]` -/

/-- The native `sepr`. -/
def Builtins.sepr : BuiltinFunction := fun w args =>
  match args with
  | [arg0, arg1] =>
    match arg0, arg1 with
    | .String strValue, .Integer indexValue =>
      let parts := Fields strValue
      let idx := indexValue
      if idx < 0 ∨ idx ≥ parts.length then
        (.ret (newError "Index out of bounds. Got %d, but only %d parts"
          [.int idx, .int parts.length]), w)
      else
        match parts[idx.toNat]? with
        | some part => (.ret (Object.String part), w)
        | none => (.panic "index out of range", w)
    | _, _ =>
      (.ret (newError "Arguments must be (string, integer). Got %s and %s"
        [.objType arg0.Type, .objType arg1.Type]), w)
  | _ => (.ret (newError "Wrong number of arguments. Got %d, expected 2" [.int args.length]), w)

/-! ## `builtins["read"]` -/

/-- The position just after the first line feed of a text, if it has one. -/
def lineEnd : List Char → Option Nat
  | [] => none
  | c :: cs => if c = '\n' then some 1 else (lineEnd cs).map (fun k => k + 1)

/-- The call `reader.ReadString('\n')` on a `bufio.Reader` made for this one
call over standard input: chunks are read until one holds a line feed; the
result is the text up to and including it (what the reader buffered beyond
it is lost with the reader), or the text read so far and `io.EOF` when the
input ends first. -/
def ReadString (acc : String) : List String → String × Option GoError × List String
  | [] => (acc, some .EOF, [])
  | chunk :: rest =>
    match lineEnd chunk.data with
    | some k => (acc ++ String.mk (chunk.data.take k), none, rest)
    | none => ReadString (acc ++ chunk) rest

/-- The native `read`. -/
def Builtins.read : BuiltinFunction := fun w args =>
  match args with
  | [arg0, arg1] =>
    match arg0, arg1 with
    | .String prompt, .String varName =>
      let w := { w with stdout := w.stdout ++ prompt }
      let (input, err, pending) := ReadString "" w.stdin
      let w := { w with stdin := pending }
      match err with
      | some e => (.ret (newError "Failed to read input: %s" [.err e]), w)
      | none =>
        let input := TrimSpace input
        let value : Object :=
          match ParseInt (stringBytes input) with
          | (intVal, none) => Object.Integer intVal
          | (_, some _) => Object.String input
        (.retNil, { w with env := w.env.Set varName value })
    | _, _ =>
      (.ret (newError "Arguments must be strings. Got %s and %s"
        [.objType arg0.Type, .objType arg1.Type]), w)
  | _ => (.ret (newError "Wrong number of arguments. Got %d, expected 2" [.int args.length]), w)

/-! ## Fields and trimmed text, as the specification words them -/

/-- A whitespace character. -/
def isWhitespace (c : Char) : Bool := IsSpace c

/-- The maximal runs of non-whitespace characters of a text, in order: skip
the whitespace in front, take the longest whitespace-free block, and go on
after it.  The first argument bounds the number of blocks. -/
def maximalRunsUpTo : Nat → List Char → List (List Char)
  | 0, _ => []
  | k + 1, s =>
    match s.dropWhile isWhitespace with
    | [] => []
    | c :: cs =>
      (c :: cs).takeWhile (fun x => !isWhitespace x) ::
        maximalRunsUpTo k ((c :: cs).dropWhile (fun x => !isWhitespace x))

/-- The sequence of maximal runs of non-whitespace characters of `s`; a text
of `n` characters has at most `n` of them. -/
def maximalRuns (s : List Char) : List (List Char) := maximalRunsUpTo (s.length + 1) s

/-- The text `t` is `line` with the surrounding whitespace trimmed: `line` is
`t` between two blocks of whitespace, and `t` neither starts nor ends with a
whitespace character. -/
def IsTrimOf (line t : List Char) : Prop :=
  ∃ front back : List Char, line = front ++ t ++ back ∧
    (∀ c ∈ front, isWhitespace c = true) ∧ (∀ c ∈ back, isWhitespace c = true) ∧
    (∀ c, t.head? = some c → isWhitespace c = false) ∧
    (∀ c, t.getLast? = some c → isWhitespace c = false)

/-! ## `builtins["write"]` and the table `builtins` -/

/-- The native `write`.  The method `Inspect` of package `object` (the textual
form of a value; its source is not among the files) is a parameter. -/
def Builtins.write (Inspect : Object → String) : BuiltinFunction := fun w args =>
  let w := args.foldl (fun w arg => { w with stdout := w.stdout ++ Inspect arg }) w
  let w := { w with stdout := w.stdout ++ "\n" }
  (.retNil, w)

/-- The map `builtins`, as its list of entries. -/
def builtins (Inspect : Object → String) : List (String × BuiltinFunction) :=
  [("read", Builtins.read), ("tpint", Builtins.tpint), ("rand", Builtins.rand),
   ("sepr", Builtins.sepr), ("tp", Builtins.tp), ("cat", Builtins.cat),
   ("first", Builtins.first), ("last", Builtins.last), ("add", Builtins.add),
   ("write", Builtins.write Inspect)]

/-- A read `builtins[name]` of the table with the comma-ok form. -/
def lookupBuiltin (m : List (String × BuiltinFunction)) (name : String) :
    Option BuiltinFunction :=
  match m with
  | [] => none
  | (k, v) :: rest => if k = name then some v else lookupBuiltin rest name

/-- The natives with a fixed number of parameters and that number, as the
specification lists them. -/
def fixedArity : List (String × Nat) :=
  [("read", 2), ("tpint", 1), ("rand", 2), ("sepr", 2), ("tp", 1), ("cat", 1),
   ("first", 1), ("last", 1), ("add", 2)]

/-! ## Package `repl` -/

/-- The functions of the interpreter that the driver calls and these files do
not define, taken as parameters: `parse` stands for
`lexer.New`, `parser.New`, `ParseProgram` and `Errors` (the program and the
list of error messages of a line), `Eval` for `evaluator.Eval` (it works on
the environment and the console of the world it is given and has no access to
the writer of the driver), `Inspect` for the textual form of a value. -/
structure Interpreter where
  Program : Type
  parse : String → Program × List String
  Eval : Program → World → Outcome × World
  Inspect : Object → String

/-- The decimal rendering of a 64-bit signed integer. -/
def decimalRendering (n : Int) : String := Int.repr n

/-! ## A stand-in interpreter to run the driver on -/

/-- An interpreter for examples: a line holding an opening parenthesis has the
one syntax error "unmatched (", the program of a line is the line itself, the
program "write()" prints a newline and yields the no-output sentinel, and any
other program binds `it` to `Integer(7)` and yields it; a value is rendered
by its kind tag. -/
def exampleInterpreter : Interpreter where
  Program := String
  parse := fun line =>
    if '(' ∈ line.data ∧ ¬ ')' ∈ line.data then (line, ["unmatched ("]) else (line, [])
  Eval := fun program w =>
    if program = "write()" then (.retNil, { w with stdout := w.stdout ++ "\n" })
    else (.ret (Object.Integer 7), { w with env := w.env.Set "it" (Object.Integer 7) })
  Inspect := fun o => match o with
    | .Integer _ => "INTEGER"
    | _ => "OTHER"

/-- A console with nothing printed and nothing to read. -/
def exampleConsole : World := ⟨.mk [] none, "", [], fun _ => 0, 0⟩

/-! ## Theorems -/

theorem allValues_map_some (l : List Object) : allValues (l.map some) = some l := by
  induction l with
  | nil => rfl
  | cons a t ih => simp [allValues, ih]

theorem heap_getD_new (h : SliceHeap) (x : List (Option Object)) :
    (h ++ [x]).getD h.length [] = x := by
  rw [List.getD_append_right _ _ _ _ (le_refl _)]
  simp

theorem heap_set_new (h : SliceHeap) (x y : List (Option Object)) :
    (h ++ [x]).set h.length y = h ++ [y] := by
  rw [List.set_append_right _ _ (le_refl _)]
  simp

theorem addStmts_eq (h : SliceHeap) (arr : Slice) (es : List Object) (v : Object)
    (haddr : arr.addr < h.length) (hlen : arr.len = es.length)
    (hes : h.elems arr = es.map some) :
    addStmts h arr v = some (h ++ [(es ++ [v]).map some], ⟨h.length, es.length + 1⟩) := by
  have hget : (h ++ [List.replicate (arr.len + 1) (none : Option Object)]).getD arr.addr []
      = h.getD arr.addr [] := List.getD_append _ _ _ _ haddr
  have hsrc : SliceHeap.elems (h ++ [List.replicate (arr.len + 1) none]) arr = es.map some := by
    unfold SliceHeap.elems at hes ⊢
    rw [hget, hes]
  have hmin : min (arr.len + 1) arr.len = arr.len := by omega
  have hcopy : SliceHeap.copy (h ++ [List.replicate (arr.len + 1) none])
      ⟨h.length, arr.len + 1⟩ arr = h ++ [es.map some ++ [none]] := by
    simp only [SliceHeap.copy, hsrc, hmin, heap_getD_new, heap_set_new]
    rw [List.take_of_length_le (by simp [hlen])]
    simp [List.replicate_succ']
  simp only [addStmts, SliceHeap.make, hcopy, SliceHeap.store, heap_getD_new, heap_set_new]
  rw [if_pos (by omega)]
  simp [hlen, List.set_append]

/-- C1: for every Array with element sequence `es` and every value `v`,
`add(arr, v)` returns an Array whose element sequence is `es` followed by `v`
(length `len(es)+1`, element `i` equal to `es[i]` for `i < len(es)`, last
element `v`), and the world is untouched.  In every slice memory where
`arr.Elements` denotes `es`, the body ends with `newElements` denoting `es`
followed by `v`, every backing array that existed before unchanged, and
`arr.Elements` still denoting `es`. -/
theorem add_appends_without_mutation (w : World) (es : List Object) (v : Object) :
    (∃ rs : List Object,
        Builtins.add w [Object.Array es, v] = (Outcome.ret (Object.Array rs), w) ∧
        rs = es ++ [v] ∧
        rs.length = es.length + 1 ∧
        (∀ i : Fin es.length, rs[i.val]? = some (es.get i)) ∧
        rs[es.length]? = some v ∧
        rs.getLast? = some v) ∧
    (∀ (h : SliceHeap) (arr : Slice),
        arr.addr < h.length → arr.len = es.length → h.elems arr = es.map some →
        ∃ h2 newElements, addStmts h arr v = some (h2, newElements) ∧
          h2.elems newElements = (es ++ [v]).map some ∧
          h2.take h.length = h ∧
          h2.elems arr = es.map some) := by
  constructor
  · refine ⟨es ++ [v], ?_, rfl, by simp, ?_, by simp, by simp⟩
    · have h0 := addStmts_eq [es.map some] ⟨0, es.length⟩ es v (by simp) rfl
        (by simp [SliceHeap.elems])
      have h1 : SliceHeap.elems ([es.map some] ++ [(es ++ [v]).map some])
          ⟨[es.map some].length, es.length + 1⟩ = (es ++ [v]).map some := by
        unfold SliceHeap.elems
        rw [heap_getD_new]
        exact List.take_of_length_le (by simp)
      simp only [Builtins.add, Object.Type, ne_eq, not_true_eq_false, if_false, h0, h1,
        allValues_map_some]
    · intro i
      simp [List.getElem?_append_left i.isLt]
  · intro h arr haddr hlen hes
    refine ⟨_, _, addStmts_eq h arr es v haddr hlen hes, ?_, ?_, ?_⟩
    · simp [SliceHeap.elems, heap_getD_new]
    · simp
    · unfold SliceHeap.elems at hes ⊢
      rw [List.getD_append _ _ _ _ haddr, hes]

/-- C1 on `add([1, 2], 3)`: the result is `[1, 2, 3]`, and in the memory
holding `[1, 2]` at address 0 that slice still reads `[1, 2]` afterwards. -/
theorem add_appends_without_mutation_witness :
    Builtins.add ⟨.mk [] none, "", [], fun _ => 0, 0⟩
        [Object.Array [Object.Integer 1, Object.Integer 2], Object.Integer 3]
      = (Outcome.ret (Object.Array [Object.Integer 1, Object.Integer 2, Object.Integer 3]),
          ⟨.mk [] none, "", [], fun _ => 0, 0⟩) ∧
    (∃ h2 newElements,
      addStmts [[some (Object.Integer 1), some (Object.Integer 2)]] ⟨0, 2⟩ (Object.Integer 3)
        = some (h2, newElements) ∧
      h2.elems newElements
        = [some (Object.Integer 1), some (Object.Integer 2), some (Object.Integer 3)] ∧
      h2.take 1 = [[some (Object.Integer 1), some (Object.Integer 2)]] ∧
      h2.elems ⟨0, 2⟩ = [some (Object.Integer 1), some (Object.Integer 2)]) := by
  have h := add_appends_without_mutation ⟨.mk [] none, "", [], fun _ => 0, 0⟩
    [Object.Integer 1, Object.Integer 2] (Object.Integer 3)
  obtain ⟨⟨rs, hrs, rfl, _⟩, hframe⟩ := h
  exact ⟨hrs, hframe [[some (Object.Integer 1), some (Object.Integer 2)]] ⟨0, 2⟩
    (by decide) rfl rfl⟩

theorem wrapInt64_of_isInt64 (x : Int) (h : isInt64 x) : wrapInt64 x = x := by
  unfold isInt64 at h
  unfold wrapInt64
  omega

/-- On a range whose width fits in 63 bits, `rand` draws once and returns an
Integer of `[min, max)`. -/
theorem rand_in_range_of_narrow (w : World) (min max : Int)
    (hmin : isInt64 min) (hmax : isInt64 max) (hlt : min < max)
    (hfit : max - min < (2 : Int) ^ 63) :
    ∃ r : Int, min ≤ r ∧ r < max ∧
      Builtins.rand w [Object.Integer min, Object.Integer max] =
        (Outcome.ret (Object.Integer r), { w with randPos := w.randPos + 1 }) := by
  have hw : wrapInt64 (max - min) = max - min := by
    apply wrapInt64_of_isInt64
    unfold isInt64 at *
    omega
  have hpos : 0 < max - min := by omega
  have h0 := Int.emod_nonneg (w.randDraws w.randPos : Int) (ne_of_gt hpos)
  have h1 := Int.emod_lt_of_pos (w.randDraws w.randPos : Int) hpos
  refine ⟨(w.randDraws w.randPos : Int) % (max - min) + min, by omega, by omega, ?_⟩
  have hw2 : wrapInt64 ((w.randDraws w.randPos : Int) % (max - min) + min)
      = (w.randDraws w.randPos : Int) % (max - min) + min := by
    apply wrapInt64_of_isInt64
    unfold isInt64 at *
    omega
  simp only [Builtins.rand, ge_iff_le, not_le.mpr hlt, if_false, hw, Intn,
    not_le.mpr hpos, hw2]

/-- On a range whose width does not fit in 63 bits, the width wraps to a
negative `int` and `rand` panics in `rand.Intn`, whatever the random source
holds. -/
theorem rand_panics_of_wide (w : World) (min max : Int)
    (hmin : isInt64 min) (hmax : isInt64 max) (hwide : (2 : Int) ^ 63 ≤ max - min) :
    Builtins.rand w [Object.Integer min, Object.Integer max] =
      (Outcome.panic "invalid argument to Intn", w) := by
  have hlt : min < max := by unfold isInt64 at *; omega
  have hw : wrapInt64 (max - min) ≤ 0 := by
    unfold isInt64 at *
    unfold wrapInt64
    omega
  simp only [Builtins.rand, ge_iff_le, not_le.mpr hlt, if_false, Intn, hw, if_true]

/-- C2 (failing input): on the 64-bit Integers `-9223372036854775807 < 1` the
width `max - min` wraps to a negative `int`, and `rand.Intn` panics whatever
the random source holds. -/
theorem rand_panics_on_wide_range (w : World) :
    isInt64 (-9223372036854775807) ∧ isInt64 1 ∧ (-9223372036854775807 : Int) < 1 ∧
    Builtins.rand w [Object.Integer (-9223372036854775807), Object.Integer 1] =
      (Outcome.panic "invalid argument to Intn", w) := by
  refine ⟨by decide, by decide, by decide, ?_⟩
  simp [Builtins.rand, wrapInt64, Intn]

/-- C3: a two-argument call `rand(x, y)` with Integers `x >= y`, or with an
argument that is not an Integer, returns an Error value, leaves the world
(random source included) as it was, and its outcome is the same in every
world, so no draw is consulted. -/
theorem rand_rejects_without_drawing (w : World) (x y : Object)
    (h : (∃ a b : Int, x = Object.Integer a ∧ y = Object.Integer b ∧ a ≥ b) ∨
         x.Type ≠ ObjectType.INTEGER_OBJ ∨ y.Type ≠ ObjectType.INTEGER_OBJ) :
    (Builtins.rand w [x, y]).1.isErrorValue = true ∧
    (Builtins.rand w [x, y]).2 = w ∧
    (∀ w2 : World, (Builtins.rand w2 [x, y]).1 = (Builtins.rand w [x, y]).1) := by
  rcases h with ⟨a, b, rfl, rfl, hab⟩ | h | h
  · simp [Builtins.rand, hab, newError, Outcome.isErrorValue, Object.isError]
  · cases x <;> first
      | exact absurd rfl h
      | simp [Builtins.rand, newError, Outcome.isErrorValue, Object.isError]
  · cases y <;> first
      | exact absurd rfl h
      | (cases x <;> simp [Builtins.rand, newError, Outcome.isErrorValue, Object.isError])

/-- C3 at `rand(5, 5)`, `rand(5, 3)` and `rand("a", 3)`: each is an Error and
draws nothing. -/
theorem rand_rejects_without_drawing_witness :
    ((Builtins.rand ⟨.mk [] none, "", [], fun _ => 7, 0⟩
        [Object.Integer 5, Object.Integer 5]).1.isErrorValue = true ∧
     (Builtins.rand ⟨.mk [] none, "", [], fun _ => 7, 0⟩
        [Object.Integer 5, Object.Integer 3]).1.isErrorValue = true ∧
     (Builtins.rand ⟨.mk [] none, "", [], fun _ => 7, 0⟩
        [Object.String "a", Object.Integer 3]).2.randPos = 0) :=
  ⟨(rand_rejects_without_drawing ⟨.mk [] none, "", [], fun _ => 7, 0⟩
      (Object.Integer 5) (Object.Integer 5) (Or.inl ⟨5, 5, rfl, rfl, by decide⟩)).1,
   (rand_rejects_without_drawing ⟨.mk [] none, "", [], fun _ => 7, 0⟩
      (Object.Integer 5) (Object.Integer 3) (Or.inl ⟨5, 3, rfl, rfl, by decide⟩)).1,
   by rw [(rand_rejects_without_drawing ⟨.mk [] none, "", [], fun _ => 7, 0⟩
      (Object.String "a") (Object.Integer 3) (Or.inr (Or.inl (by decide)))).2.1]⟩

/-- C4: `LookupIdent` is a fixed table lookup.  The keyword table has seven
entries with pairwise different spellings, one for each of the kinds
function-def, var-decl, true, false, if, else and return; a spelling of the
table is mapped to its kind (`"var"` to var-decl, `"def"` to function-def,
`"return"` to return) and every other string, `"Var"` and the empty string
included, to `IDENT`. -/
theorem LookupIdent_table :
    keywords.length = 7 ∧ (keywords.map Prod.fst).Nodup ∧
    keywords.map Prod.snd = [FUNCTION, LET, TRUE, FALSE, IF, ELSE, RETURN] ∧
    (∀ kv ∈ keywords, LookupIdent kv.1 = kv.2) ∧
    LookupIdent "var" = LET ∧ LookupIdent "def" = FUNCTION ∧ LookupIdent "return" = RETURN ∧
    (∀ s : String, s ∉ keywords.map Prod.fst → LookupIdent s = IDENT) ∧
    LookupIdent "Var" = IDENT ∧ LookupIdent "" = IDENT := by
  refine ⟨rfl, by decide, rfl, by decide, by decide, by decide, by decide, ?_, by decide,
    by decide⟩
  intro s hs
  simp only [keywords, List.map, List.mem_cons, List.mem_nil_iff, or_false, not_or] at hs
  obtain ⟨h1, h2, h3, h4, h5, h6, h7⟩ := hs
  simp [LookupIdent, keywords, mapLookup, Ne.symm h1, Ne.symm h2, Ne.symm h3, Ne.symm h4,
    Ne.symm h5, Ne.symm h6, Ne.symm h7]

theorem char_toNat_valid (c : Char) :
    c.toNat < 0xD800 ∨ (0xDFFF < c.toNat ∧ c.toNat < 0x110000) := by
  have h := c.valid
  simp only [UInt32.isValidChar, Nat.isValidChar] at h
  exact h

theorem first_two (c : Nat) (h1 : 0xC2 ≤ c) (h2 : c < 0xE0) : first c = 0x02 := by
  unfold first
  rw [if_neg (by omega), if_neg (by omega), if_pos (by omega)]

theorem first_three (c : Nat) (h1 : 0xE0 ≤ c) (h2 : c < 0xF0) :
    first c = if c = 0xE0 then 0x13 else if c = 0xED then 0x23 else 0x03 := by
  unfold first
  rw [if_neg (by omega), if_neg (by omega), if_neg (by omega)]
  split_ifs <;> first | rfl | omega

theorem first_four (c : Nat) (h1 : 0xF0 ≤ c) (h2 : c < 0xF5) :
    first c = if c = 0xF0 then 0x34 else if c = 0xF4 then 0x44 else 0x04 := by
  unfold first
  split_ifs <;> first | rfl | omega

theorem runeStep_three (c c1 c2 : Nat) (rest : List Nat) (h1 : 0xE0 ≤ c) (h2 : c < 0xF0)
    (h3 : 0x80 ≤ c1) (h4 : c1 ≤ 0xBF) (h5 : c = 0xE0 → 0xA0 ≤ c1) (h6 : c = 0xED → c1 ≤ 0x9F)
    (h7 : 0x80 ≤ c2) (h8 : c2 ≤ 0xBF) : runeStep c (c1 :: c2 :: rest) = 3 := by
  have hc : ¬ c < 0x80 := by omega
  have hb2 : ¬ (c2 < 0x80 ∨ 0xBF < c2) := by omega
  have hf := first_three c h1 h2
  by_cases hE0 : c = 0xE0
  · have hb1 : ¬ (c1 < 0xA0 ∨ 0xBF < c1) := by have := h5 hE0; omega
    rw [if_pos hE0] at hf
    simp [runeStep, RuneSelf, hf, xx, locb, hicb, acceptRanges, hc, hb1, hb2]
  · by_cases hED : c = 0xED
    · have hb1 : ¬ (c1 < 0x80 ∨ 0x9F < c1) := by have := h6 hED; omega
      rw [if_neg hE0, if_pos hED] at hf
      simp [runeStep, RuneSelf, hf, xx, locb, hicb, acceptRanges, hc, hb1, hb2]
    · have hb1 : ¬ (c1 < 0x80 ∨ 0xBF < c1) := by omega
      rw [if_neg hE0, if_neg hED] at hf
      simp [runeStep, RuneSelf, hf, xx, locb, hicb, acceptRanges, hc, hb1, hb2]

theorem runeStep_four (c c1 c2 c3 : Nat) (rest : List Nat) (h1 : 0xF0 ≤ c) (h2 : c < 0xF5)
    (h3 : 0x80 ≤ c1) (h4 : c1 ≤ 0xBF) (h5 : c = 0xF0 → 0x90 ≤ c1) (h6 : c = 0xF4 → c1 ≤ 0x8F)
    (h7 : 0x80 ≤ c2) (h8 : c2 ≤ 0xBF) (h9 : 0x80 ≤ c3) (h10 : c3 ≤ 0xBF) :
    runeStep c (c1 :: c2 :: c3 :: rest) = 4 := by
  have hc : ¬ c < 0x80 := by omega
  have hb2 : ¬ (c2 < 0x80 ∨ 0xBF < c2) := by omega
  have hb3 : ¬ (c3 < 0x80 ∨ 0xBF < c3) := by omega
  have hf := first_four c h1 h2
  by_cases hF0 : c = 0xF0
  · have hb1 : ¬ (c1 < 0x90 ∨ 0xBF < c1) := by have := h5 hF0; omega
    rw [if_pos hF0] at hf
    simp [runeStep, RuneSelf, hf, xx, locb, hicb, acceptRanges, hc, hb1, hb2, hb3]
  · by_cases hF4 : c = 0xF4
    · have hb1 : ¬ (c1 < 0x80 ∨ 0x8F < c1) := by have := h6 hF4; omega
      rw [if_neg hF0, if_pos hF4] at hf
      simp [runeStep, RuneSelf, hf, xx, locb, hicb, acceptRanges, hc, hb1, hb2, hb3]
    · have hb1 : ¬ (c1 < 0x80 ∨ 0xBF < c1) := by omega
      rw [if_neg hF0, if_neg hF4] at hf
      simp [runeStep, RuneSelf, hf, xx, locb, hicb, acceptRanges, hc, hb1, hb2, hb3]

theorem runeStep_two (c c1 : Nat) (rest : List Nat) (h1 : 0xC2 ≤ c) (h2 : c < 0xE0)
    (h3 : 0x80 ≤ c1) (h4 : c1 ≤ 0xBF) : runeStep c (c1 :: rest) = 2 := by
  have hc : ¬ c < 0x80 := by omega
  have hb1 : ¬ (c1 < 0x80 ∨ 0xBF < c1) := by omega
  simp [runeStep, RuneSelf, first_two c h1 h2, xx, locb, hicb, acceptRanges, hc, hb1]

theorem runeCountLoop_encodeRune (r : Nat) (rest : List Nat) (fuel n : Nat)
    (hr : r < 0xD800 ∨ (0xDFFF < r ∧ r < 0x110000)) :
    runeCountLoop (fuel + 1) (encodeRune r ++ rest) n = runeCountLoop fuel rest (n + 1) := by
  unfold encodeRune
  split_ifs with h1 h2 h3
  · have : runeStep r rest = 1 := by simp [runeStep, RuneSelf]; omega
    simp [runeCountLoop, this]
  · have := runeStep_two (0xC0 + r / 64) (0x80 + r % 64) rest (by omega) (by omega)
      (by omega) (by omega)
    simp [runeCountLoop, this]
  · have := runeStep_three (0xE0 + r / 4096) (0x80 + r / 64 % 64) (0x80 + r % 64) rest
      (by omega) (by omega) (by omega) (by omega) (by omega) (by omega) (by omega) (by omega)
    simp [runeCountLoop, this]
  · have := runeStep_four (0xF0 + r / 262144) (0x80 + r / 4096 % 64) (0x80 + r / 64 % 64)
      (0x80 + r % 64) rest
      (by omega) (by omega) (by omega) (by omega) (by omega) (by omega) (by omega) (by omega)
      (by omega) (by omega)
    simp [runeCountLoop, this]

theorem encodeRune_length_pos (r : Nat) : 0 < (encodeRune r).length := by
  unfold encodeRune
  split_ifs <;> simp

theorem runeCountLoop_bytesOf (cs : List Char) :
    ∀ fuel n, (bytesOf cs).length ≤ fuel → runeCountLoop fuel (bytesOf cs) n = n + cs.length := by
  induction cs with
  | nil => intro fuel n _; cases fuel <;> simp [bytesOf, runeCountLoop]
  | cons c t ih =>
    intro fuel n hfuel
    have hpos := encodeRune_length_pos c.toNat
    simp only [bytesOf, List.length_append] at hfuel ⊢
    obtain ⟨f, rfl⟩ : ∃ f, fuel = f + 1 := ⟨fuel - 1, by omega⟩
    rw [runeCountLoop_encodeRune _ _ _ _ (char_toNat_valid c), ih f (n + 1) (by omega)]
    simp only [List.length_cons]
    omega

theorem RuneCountInString_stringBytes (s : String) :
    RuneCountInString (stringBytes s) = s.length := by
  unfold RuneCountInString stringBytes
  rw [runeCountLoop_bytesOf s.data _ 0 (le_refl _)]
  rw [Nat.zero_add]
  rfl

/-- C5: `cat(x)` returns the number of elements of an Array, the number of
code points of a String (computed by `utf8.RuneCountInString` over its bytes,
which can be more numerous: the five code points of "héllo" take six bytes),
and an Error value for an argument of any other kind. -/
theorem cat_counts_elements_or_code_points (w : World) :
    (∀ es : List Object,
      Builtins.cat w [Object.Array es] = (Outcome.ret (Object.Integer es.length), w)) ∧
    (∀ s : String,
      Builtins.cat w [Object.String s] = (Outcome.ret (Object.Integer s.length), w)) ∧
    (Builtins.cat w [Object.String "héllo"] = (Outcome.ret (Object.Integer 5), w) ∧
      (stringBytes "héllo").length = 6) ∧
    (∀ n, (Builtins.cat w [Object.Integer n]).1.isErrorValue = true) ∧
    (∀ b, (Builtins.cat w [Object.Boolean b]).1.isErrorValue = true) ∧
    (∀ ps, (Builtins.cat w [Object.Hash ps]).1.isErrorValue = true) ∧
    (∀ ps body env, (Builtins.cat w [Object.Function ps body env]).1.isErrorValue = true) ∧
    (∀ name, (Builtins.cat w [Object.Builtin name]).1.isErrorValue = true) ∧
    (Builtins.cat w [Object.Null]).1.isErrorValue = true ∧
    (∀ f ops, (Builtins.cat w [Object.Error f ops]).1.isErrorValue = true) ∧
    (∀ v, (Builtins.cat w [Object.ReturnValue v]).1.isErrorValue = true) := by
  have hs : ∀ s : String,
      Builtins.cat w [Object.String s] = (Outcome.ret (Object.Integer s.length), w) := by
    intro s
    simp only [Builtins.cat, RuneCountInString_stringBytes]
  refine ⟨fun es => rfl, hs, ⟨hs _, by decide⟩, ?_, ?_, ?_, ?_, ?_, ?_, ?_, ?_⟩ <;>
    intros <;> rfl

/-- C6: on an Array with at least one element `first` returns the element at
index 0 and `last` the element at index length-1; on the empty Array both
return Null, which is not an Error; on an argument that is not an Array both
return an Error value. -/
theorem first_last_of_array (w : World) (x : Object) :
    (∀ es : List Object, x = Object.Array es → ∀ h : 0 < es.length,
      Builtins.first w [x] = (Outcome.ret (es.get ⟨0, h⟩), w) ∧
      Builtins.last w [x] = (Outcome.ret (es.get ⟨es.length - 1, by omega⟩), w)) ∧
    (x = Object.Array [] →
      Builtins.first w [x] = (Outcome.ret Object.Null, w) ∧
      Builtins.last w [x] = (Outcome.ret Object.Null, w) ∧
      Object.Null.isError = false) ∧
    (x.Type ≠ ObjectType.ARRAY_OBJ →
      (Builtins.first w [x]).1.isErrorValue = true ∧
      (Builtins.last w [x]).1.isErrorValue = true) := by
  refine ⟨?_, ?_, ?_⟩
  · rintro es rfl h
    have h0 : es[0]? = some (es.get ⟨0, h⟩) := List.getElem?_eq_getElem h
    have h1 : es[es.length - 1]? = some (es.get ⟨es.length - 1, by omega⟩) :=
      List.getElem?_eq_getElem (by omega)
    simp [Builtins.first, Builtins.last, Object.Type, indexElem, h, h0, h1]
  · rintro rfl
    simp [Builtins.first, Builtins.last, Object.Type, NULL, Object.isError]
  · intro hx
    cases x <;> first
      | exact absurd rfl hx
      | exact ⟨rfl, rfl⟩

/-- C6 on the Array `[1, 2, 3]`: `first` is `1` and `last` is `3`. -/
theorem first_last_of_array_witness :
    Builtins.first ⟨.mk [] none, "", [], fun _ => 0, 0⟩
        [Object.Array [Object.Integer 1, Object.Integer 2, Object.Integer 3]]
      = (Outcome.ret (Object.Integer 1), ⟨.mk [] none, "", [], fun _ => 0, 0⟩) ∧
    Builtins.last ⟨.mk [] none, "", [], fun _ => 0, 0⟩
        [Object.Array [Object.Integer 1, Object.Integer 2, Object.Integer 3]]
      = (Outcome.ret (Object.Integer 3), ⟨.mk [] none, "", [], fun _ => 0, 0⟩) :=
  (first_last_of_array ⟨.mk [] none, "", [], fun _ => 0, 0⟩
    (Object.Array [Object.Integer 1, Object.Integer 2, Object.Integer 3])).1
    [Object.Integer 1, Object.Integer 2, Object.Integer 3] rfl (by decide)

/-- C7 (counterexample): for the native function `cat`, whose kind is the
native-function kind and not Null, `tp` answers "null", the name the claim
gives to Null; the same happens for an Error and for a return signal.  So the
answers of `tp` are not the names of the kinds of its arguments under any
naming that gives different kinds different names. -/
theorem tp_native_function_called_null :
    Builtins.tp exampleConsole [Object.Builtin "cat"]
      = (Outcome.ret (Object.String "null"), exampleConsole) ∧
    (Object.Builtin "cat").Type = ObjectType.BUILTIN_OBJ ∧
    (Object.Builtin "cat").Type ≠ ObjectType.NULL_OBJ ∧
    Builtins.tp exampleConsole [Object.Error "identifier not found" []]
      = (Outcome.ret (Object.String "null"), exampleConsole) ∧
    Builtins.tp exampleConsole [Object.ReturnValue (Object.Integer 1)]
      = (Outcome.ret (Object.String "null"), exampleConsole) ∧
    ¬ (∃ kindName : ObjectType → String, Function.Injective kindName ∧
        ∀ (w : World) (x : Object),
          Builtins.tp w [x] = (Outcome.ret (Object.String (kindName x.Type)), w)) := by
  refine ⟨rfl, rfl, by decide, rfl, rfl, ?_⟩
  rintro ⟨kindName, hinj, hall⟩
  have h1 := hall exampleConsole (Object.Builtin "cat")
  have h2 := hall exampleConsole Object.Null
  simp only [Builtins.tp, Prod.mk.injEq, Outcome.ret.injEq, Object.String.injEq,
    and_true] at h1 h2
  have h3 : kindName (Object.Builtin "cat").Type = kindName Object.Null.Type := by
    rw [← h1, ← h2]
  exact absurd (hinj h3) (by decide)

/-- C7 (amended): for every single argument `x`, `tp(x)` returns a String and
never an Error, and leaves the world as it was: "array" for an Array,
"string" for a String, "hash" for a Hash, "integer" for an Integer, "boolean"
for a Boolean, "function" for a Function, and "null" for Null and for a value
of any other kind, that is a native function, an Error or a return signal. -/
theorem tp_names_listed_kind_else_null (w : World) :
    (∀ es, Builtins.tp w [Object.Array es] = (Outcome.ret (Object.String "array"), w)) ∧
    (∀ s, Builtins.tp w [Object.String s] = (Outcome.ret (Object.String "string"), w)) ∧
    (∀ ps, Builtins.tp w [Object.Hash ps] = (Outcome.ret (Object.String "hash"), w)) ∧
    (∀ n, Builtins.tp w [Object.Integer n] = (Outcome.ret (Object.String "integer"), w)) ∧
    (∀ b, Builtins.tp w [Object.Boolean b] = (Outcome.ret (Object.String "boolean"), w)) ∧
    (∀ ps body env, Builtins.tp w [Object.Function ps body env]
      = (Outcome.ret (Object.String "function"), w)) ∧
    Builtins.tp w [Object.Null] = (Outcome.ret (Object.String "null"), w) ∧
    (∀ name, Builtins.tp w [Object.Builtin name] = (Outcome.ret (Object.String "null"), w)) ∧
    (∀ format operands, Builtins.tp w [Object.Error format operands]
      = (Outcome.ret (Object.String "null"), w)) ∧
    (∀ v, Builtins.tp w [Object.ReturnValue v] = (Outcome.ret (Object.String "null"), w)) ∧
    (∀ x : Object, (Builtins.tp w [x]).1.isErrorValue = false) := by
  refine ⟨fun _ => rfl, fun _ => rfl, fun _ => rfl, fun _ => rfl, fun _ => rfl,
    fun _ _ _ => rfl, rfl, fun _ => rfl, fun _ _ => rfl, fun _ => rfl, ?_⟩
  intro x
  cases x <;> rfl

theorem digitOfByte_digit (c : Nat) (h : 48 ≤ c ∧ c ≤ 57) : digitOfByte c = some (c - 48) := by
  simp [digitOfByte, h]

theorem digitOfByte_other (c : Nat) (h : ¬ (48 ≤ c ∧ c ≤ 57)) :
    digitOfByte c = none ∨ ∃ d, digitOfByte c = some d ∧ d ≥ 10 := by
  unfold digitOfByte
  rw [if_neg h]
  split_ifs
  · exact Or.inr ⟨_, rfl, by omega⟩
  · exact Or.inl rfl

theorem parseUintLoop_other (s0 : List Nat) (c : Nat) (cs : List Nat) (n : Nat)
    (h : ¬ (48 ≤ c ∧ c ≤ 57)) :
    parseUintLoop s0 (c :: cs) n = (0, some (syntaxError "ParseUint" s0)) := by
  rcases digitOfByte_other c h with h1 | ⟨d, h1, h2⟩
  · simp [parseUintLoop, h1]
  · simp [parseUintLoop, h1, h2]

theorem parseUintLoop_range (s0 : List Nat) (bs : List Nat) :
    ∀ n e, (parseUintLoop s0 bs n).2 = some e → e.Err = .ErrRange →
      (parseUintLoop s0 bs n).1 = maxUint64 := by
  induction bs with
  | nil => intro n e h; simp [parseUintLoop] at h
  | cons c cs ih =>
    intro n e h he
    by_cases hc : 48 ≤ c ∧ c ≤ 57
    · simp only [parseUintLoop, digitOfByte_digit c hc] at h ⊢
      split_ifs at h ⊢ with h1 h2 h3
      · simp [syntaxError] at h; rw [← h] at he; simp at he
      · rfl
      · rfl
      · exact ih _ e h he
    · rw [parseUintLoop_other s0 c cs n hc] at h
      simp [syntaxError] at h; rw [← h] at he; simp at he

theorem digitsValue_ge (cs : List Char) : ∀ acc, acc ≤ digitsValue acc cs := by
  induction cs with
  | nil => intro acc; exact le_refl _
  | cons c cs ih =>
    intro acc
    have := ih (acc * 10 + digitValue c)
    show acc ≤ digitsValue (acc * 10 + digitValue c) cs
    omega

theorem encodeRune_head (r : Nat) :
    (r ≤ 0x7F ∧ encodeRune r = [r]) ∨ (∃ b tl, encodeRune r = b :: tl ∧ 0xC0 ≤ b) := by
  unfold encodeRune
  split_ifs with h1 h2 h3
  · exact Or.inl ⟨h1, rfl⟩
  · exact Or.inr ⟨_, _, rfl, by omega⟩
  · exact Or.inr ⟨_, _, rfl, by omega⟩
  · exact Or.inr ⟨_, _, rfl, by omega⟩

theorem bytesOf_cons_digit (c : Char) (cs : List Char) (h : isDecimalDigit c) :
    bytesOf (c :: cs) = c.toNat :: bytesOf cs := by
  unfold isDecimalDigit at h
  simp only [bytesOf, encodeRune]
  rw [if_pos (by omega)]
  rfl

theorem char_eq_of_toNat (c d : Char) (h : c.toNat = d.toNat) : c = d := by
  rw [← Char.ofNat_toNat c, ← Char.ofNat_toNat d, h]

theorem digitValue_eq (c : Char) (h : 48 ≤ c.toNat ∧ c.toNat ≤ 57) :
    digitValue c = c.toNat - 48 := by
  obtain ⟨h1, h2⟩ := h
  have hc : c.toNat = 48 ∨ c.toNat = 49 ∨ c.toNat = 50 ∨ c.toNat = 51 ∨ c.toNat = 52 ∨
      c.toNat = 53 ∨ c.toNat = 54 ∨ c.toNat = 55 ∨ c.toNat = 56 ∨ c.toNat = 57 := by omega
  rcases hc with h | h | h | h | h | h | h | h | h | h <;>
    (rw [← Char.ofNat_toNat c, h]; rfl)

theorem bytesOf_cons_other (c : Char) (cs : List Char) (h : ¬ isDecimalDigit c) :
    ∃ b tl, bytesOf (c :: cs) = b :: tl ∧ ¬ (48 ≤ b ∧ b ≤ 57) ∧
      (b = 43 ↔ c = '+') ∧ (b = 45 ↔ c = '-') := by
  unfold isDecimalDigit at h
  rcases encodeRune_head c.toNat with ⟨h1, h2⟩ | ⟨b, tl, h2, h3⟩
  · refine ⟨c.toNat, bytesOf cs, by simp [bytesOf, h2], h, ?_, ?_⟩
    · constructor
      · intro hb; exact char_eq_of_toNat _ _ hb
      · rintro rfl; rfl
    · constructor
      · intro hb; exact char_eq_of_toNat _ _ hb
      · rintro rfl; rfl
  · refine ⟨b, tl ++ bytesOf cs, by simp [bytesOf, h2], by omega, ?_, ?_⟩
    · constructor
      · intro hb; omega
      · rintro rfl; simp [encodeRune] at h2; omega
    · constructor
      · intro hb; omega
      · rintro rfl; simp [encodeRune] at h2; omega

theorem parseUintLoop_bytesOf (s0 : List Nat) (cs : List Char) :
    ∀ n v, n ≤ maxUint64 →
      (parseUintLoop s0 (bytesOf cs) n = (v, none) ↔
        (∀ c ∈ cs, isDecimalDigit c) ∧ digitsValue n cs = v ∧ v ≤ maxUint64) := by
  induction cs with
  | nil =>
    intro n v hn
    simp only [bytesOf, parseUintLoop, digitsValue, Prod.mk.injEq, and_true]
    constructor
    · rintro rfl; exact ⟨by simp, rfl, hn⟩
    · rintro ⟨_, h, _⟩; exact h
  | cons c cs ih =>
    intro n v hn
    unfold maxUint64 at hn
    by_cases hc : isDecimalDigit c
    · rw [bytesOf_cons_digit c cs hc]
      unfold isDecimalDigit at hc
      have hdv := digitValue_eq c hc
      have hge := digitsValue_ge cs (n * 10 + digitValue c)
      simp only [parseUintLoop, digitOfByte_digit _ hc, digitsValue, List.mem_cons, forall_eq_or_imp]
      rw [if_neg (by omega)]
      split_ifs with h1 h2
      · unfold maxUint64 at h1 ⊢
        simp only [Prod.mk.injEq, reduceCtorEq, and_false, false_iff, not_and, not_le]
        intro _ hv
        omega
      · unfold maxUint64 at h1 h2 ⊢
        simp only [Prod.mk.injEq, reduceCtorEq, and_false, false_iff, not_and, not_le]
        intro _ hv
        omega
      · unfold maxUint64 at h1 h2
        have hn1 : (n * 10 + (c.toNat - 48)) % 18446744073709551616 = n * 10 + (c.toNat - 48) := by
          omega
        rw [hn1, ← hdv, ih _ v (by unfold maxUint64; omega)]
        simp [isDecimalDigit, hc]
    · obtain ⟨b, tl, hb, hnd, _, _⟩ := bytesOf_cons_other c cs hc
      rw [hb, parseUintLoop_other s0 b tl n hnd]
      simp [hc]

theorem bytesOf_eq_nil (cs : List Char) : bytesOf cs = [] ↔ cs = [] := by
  cases cs with
  | nil => simp [bytesOf]
  | cons c cs =>
    have := encodeRune_length_pos c.toNat
    simp only [bytesOf, List.append_eq_nil, reduceCtorEq, iff_false, not_and]
    intro h
    rw [h] at this
    simp at this

theorem ParseUint_bytesOf (cs : List Char) (v : Nat) :
    ParseUint (bytesOf cs) = (v, none) ↔
      cs ≠ [] ∧ (∀ c ∈ cs, isDecimalDigit c) ∧ digitsValue 0 cs = v ∧ v ≤ maxUint64 := by
  unfold ParseUint
  by_cases h : cs = []
  · subst h
    simp [bytesOf]
  · rw [if_neg (by rwa [bytesOf_eq_nil]), parseUintLoop_bytesOf _ cs 0 v (by unfold maxUint64; omega)]
    simp [h]

theorem ParseUint_range (bs : List Nat) (e : NumError) (h : (ParseUint bs).2 = some e)
    (he : e.Err = .ErrRange) : (ParseUint bs).1 = maxUint64 := by
  unfold ParseUint at h ⊢
  split_ifs at h ⊢ with h1
  · simp [syntaxError] at h; rw [← h] at he; simp at he
  · exact parseUintLoop_range bs bs 0 e h he

theorem parseIntRange_none (neg : Bool) (un : Nat) (s0 : List Nat) (n : Int)
    (hun : un ≤ maxUint64) :
    parseIntRange neg un s0 = (n, none) ↔
      (neg = false ∧ un < 9223372036854775808 ∧ n = un) ∨
      (neg = true ∧ un ≤ 9223372036854775808 ∧ n = -(un : Int)) := by
  unfold maxUint64 at hun
  cases neg
  · simp only [parseIntRange, Bool.not_false, Bool.true_and, decide_eq_true_eq, Bool.false_and,
      Bool.false_eq_true, if_false]
    split_ifs with h1
    · simp; omega
    · have : wrapInt64 (un : Int) = un := by
        apply wrapInt64_of_isInt64; unfold isInt64; omega
      simp only [this, Prod.mk.injEq, and_true]
      constructor
      · rintro rfl; exact Or.inl ⟨trivial, by omega, rfl⟩
      · rintro (⟨_, _, rfl⟩ | ⟨h, _⟩)
        · rfl
        · simp at h
  · simp only [parseIntRange, Bool.not_true, Bool.false_and, Bool.false_eq_true, if_false,
      Bool.true_and, decide_eq_true_eq, if_true]
    split_ifs with h1
    · simp; omega
    · have : wrapInt64 (-wrapInt64 (un : Int)) = -(un : Int) := by
        unfold wrapInt64; omega
      simp only [this, Prod.mk.injEq, and_true]
      constructor
      · rintro rfl; exact Or.inr ⟨trivial, by omega, rfl⟩
      · rintro (⟨h, _⟩ | ⟨_, _, rfl⟩)
        · simp at h
        · rfl

theorem ParseInt_cons (c0 : Nat) (tl : List Nat) (n : Int) :
    ParseInt (c0 :: tl) = (n, none) ↔
      ∃ un, ParseUint (if c0 = 43 then tl else if c0 = 45 then tl else c0 :: tl) = (un, none) ∧
        parseIntRange (decide (c0 ≠ 43 ∧ c0 = 45)) un (c0 :: tl) = (n, none) := by
  simp only [ParseInt]
  generalize hbody : (if c0 = 43 then tl else if c0 = 45 then tl else c0 :: tl) = body
  rcases hpu : ParseUint body with ⟨un, _ | e⟩
  · simp
  · have hr := ParseUint_range body e (by rw [hpu])
    simp only [hpu] at hr
    by_cases he : e.Err = .ErrRange
    · have hmax := hr he
      subst hmax
      simp only [he, ne_eq, not_true_eq_false, if_false, Prod.mk.injEq, reduceCtorEq, and_false,
        false_and, exists_false, iff_false]
      intro h
      rw [parseIntRange_none _ _ _ _ (le_refl _)] at h
      unfold maxUint64 at h
      omega
    · simp [he]

theorem bytesOf_cons_head (c : Char) (cs : List Char) :
    ∃ b tl, bytesOf (c :: cs) = b :: tl ∧ (b = 43 ↔ c = '+') ∧ (b = 45 ↔ c = '-') := by
  by_cases hc : isDecimalDigit c
  · refine ⟨c.toNat, bytesOf cs, bytesOf_cons_digit c cs hc, ?_, ?_⟩
    · constructor
      · intro hb; exact char_eq_of_toNat _ _ hb
      · rintro rfl; rfl
    · constructor
      · intro hb; exact char_eq_of_toNat _ _ hb
      · rintro rfl; rfl
  · obtain ⟨b, tl, h1, _, h2, h3⟩ := bytesOf_cons_other c cs hc
    exact ⟨b, tl, h1, h2, h3⟩

theorem bytesOf_plus (cs : List Char) : bytesOf ('+' :: cs) = 43 :: bytesOf cs := rfl

theorem bytesOf_minus (cs : List Char) : bytesOf ('-' :: cs) = 45 :: bytesOf cs := rfl

theorem ParseInt_stringBytes (s : String) (n : Int) :
    ParseInt (stringBytes s) = (n, none) ↔ IntLiteral s n ∧ isInt64 n := by
  unfold stringBytes IntLiteral isInt64
  rcases hs : s.data with _ | ⟨c, cs⟩
  · simp [bytesOf, ParseInt]
  · by_cases hplus : c = '+'
    · subst hplus
      rw [bytesOf_plus, ParseInt_cons]
      simp only [if_true, ParseUint_bytesOf]
      constructor
      · rintro ⟨un, ⟨hne, hd, hv, hmax⟩, hr⟩
        rw [parseIntRange_none _ _ _ _ hmax] at hr
        simp at hr
        obtain ⟨hlt, rfl⟩ := hr
        subst hv
        refine ⟨⟨['+'], cs, rfl, by simp, hne, hd, by simp⟩, by omega, by omega⟩
      · rintro ⟨⟨sign, ds, hsd, hsign, hne, hd, hn⟩, hlo, hhi⟩
        rcases hsign with rfl | rfl | rfl
        · simp only [List.nil_append] at hsd
          subst hsd
          have := hd '+' (by simp)
          simp [isDecimalDigit] at this
        · simp only [List.singleton_append, List.cons.injEq, true_and] at hsd
          subst hsd
          simp at hn
          refine ⟨digitsValue 0 cs, ⟨hne, hd, rfl, by unfold maxUint64; omega⟩, ?_⟩
          rw [parseIntRange_none _ _ _ _ (by unfold maxUint64; omega)]
          simp; omega
        · simp at hsd
    · by_cases hminus : c = '-'
      · subst hminus
        rw [bytesOf_minus, ParseInt_cons, if_neg (by decide), if_pos rfl]
        simp only [ParseUint_bytesOf]
        constructor
        · rintro ⟨un, ⟨hne, hd, hv, hmax⟩, hr⟩
          rw [parseIntRange_none _ _ _ _ hmax] at hr
          simp at hr
          obtain ⟨hlt, rfl⟩ := hr
          subst hv
          refine ⟨⟨['-'], cs, rfl, by simp, hne, hd, by simp⟩, by omega, by omega⟩
        · rintro ⟨⟨sign, ds, hsd, hsign, hne, hd, hn⟩, hlo, hhi⟩
          rcases hsign with rfl | rfl | rfl
          · simp only [List.nil_append] at hsd
            subst hsd
            have := hd '-' (by simp)
            simp [isDecimalDigit] at this
          · simp at hsd
          · simp only [List.singleton_append, List.cons.injEq, true_and] at hsd
            subst hsd
            simp at hn
            refine ⟨digitsValue 0 cs, ⟨hne, hd, rfl, by unfold maxUint64; omega⟩, ?_⟩
            rw [parseIntRange_none _ _ _ _ (by unfold maxUint64; omega)]
            simp; omega
      · obtain ⟨b, tl, hb, hb43, hb45⟩ := bytesOf_cons_head c cs
        have h43 : b ≠ 43 := fun h => hplus (hb43.mp h)
        have h45 : b ≠ 45 := fun h => hminus (hb45.mp h)
        rw [hb, ParseInt_cons, if_neg h43, if_neg h45, ← hb]
        simp only [ParseUint_bytesOf]
        constructor
        · rintro ⟨un, ⟨hne, hd, hv, hmax⟩, hr⟩
          rw [parseIntRange_none _ _ _ _ hmax] at hr
          simp [h43, h45] at hr
          obtain ⟨hlt, rfl⟩ := hr
          subst hv
          refine ⟨⟨[], c :: cs, rfl, by simp, hne, hd, by simp⟩, by omega, by omega⟩
        · rintro ⟨⟨sign, ds, hsd, hsign, hne, hd, hn⟩, hlo, hhi⟩
          rcases hsign with rfl | rfl | rfl
          · simp only [List.nil_append] at hsd
            subst hsd
            simp at hn
            refine ⟨digitsValue 0 (c :: cs), ⟨hne, hd, rfl, by unfold maxUint64; omega⟩, ?_⟩
            rw [parseIntRange_none _ _ _ _ (by unfold maxUint64; omega)]
            simp [h43, h45]; omega
          · simp only [List.singleton_append, List.cons.injEq] at hsd
            exact absurd hsd.1 hplus
          · simp only [List.singleton_append, List.cons.injEq] at hsd
            exact absurd hsd.1 hminus

/-- C8: `tpint(s)` returns `Integer(n)` exactly when `s` is a well-formed
base-10 integer literal (an optional sign, then one or more decimal digits,
nothing else) denoting a value `n` of the 64-bit signed range; for every other
String (empty, holding a non-digit, surrounded by whitespace, out of range)
and for every argument that is not a String it returns an Error value. -/
theorem tpint_accepts_exactly_int64_literals (w : World) :
    (∀ (s : String) (n : Int),
      Builtins.tpint w [Object.String s] = (Outcome.ret (Object.Integer n), w) ↔
        IntLiteral s n ∧ isInt64 n) ∧
    (∀ s : String, (¬ ∃ n, IntLiteral s n ∧ isInt64 n) →
      (Builtins.tpint w [Object.String s]).1.isErrorValue = true) ∧
    (Builtins.tpint w [Object.String "-42"] = (Outcome.ret (Object.Integer (-42)), w) ∧
      Builtins.tpint w [Object.String "+007"] = (Outcome.ret (Object.Integer 7), w) ∧
      Builtins.tpint w [Object.String "-9223372036854775808"]
        = (Outcome.ret (Object.Integer (-9223372036854775808)), w)) ∧
    ((Builtins.tpint w [Object.String ""]).1.isErrorValue = true ∧
      (Builtins.tpint w [Object.String "12a"]).1.isErrorValue = true ∧
      (Builtins.tpint w [Object.String " 12"]).1.isErrorValue = true ∧
      (Builtins.tpint w [Object.String "12 "]).1.isErrorValue = true ∧
      (Builtins.tpint w [Object.String "9223372036854775808"]).1.isErrorValue = true) ∧
    (∀ x : Object, x.Type ≠ ObjectType.STRING_OBJ →
      (Builtins.tpint w [x]).1.isErrorValue = true) := by
  have key : ∀ (s : String) (n : Int),
      Builtins.tpint w [Object.String s] = (Outcome.ret (Object.Integer n), w) ↔
        IntLiteral s n ∧ isInt64 n := by
    intro s n
    rw [← ParseInt_stringBytes]
    simp only [Builtins.tpint]
    rcases hp : ParseInt (stringBytes s) with ⟨v, _ | e⟩
    · simp
    · simp [newError]
  refine ⟨key, ?_, ⟨rfl, rfl, rfl⟩, ⟨rfl, rfl, rfl, rfl, rfl⟩, ?_⟩
  · intro s hs
    simp only [Builtins.tpint]
    rcases hp : ParseInt (stringBytes s) with ⟨v, _ | e⟩
    · exact absurd ⟨v, (ParseInt_stringBytes s v).mp hp⟩ hs
    · rfl
  · intro x hx
    cases x <;> first
      | exact absurd rfl hx
      | rfl

/-- C8 on the text "12a": it is no integer literal, and `tpint` returns an
Error value. -/
theorem tpint_accepts_exactly_int64_literals_witness :
    (Builtins.tpint ⟨.mk [] none, "", [], fun _ => 0, 0⟩
      [Object.String "12a"]).1.isErrorValue = true :=
  (tpint_accepts_exactly_int64_literals ⟨.mk [] none, "", [], fun _ => 0, 0⟩).2.1 "12a"
    (by
      rintro ⟨n, h, hn⟩
      have h1 := ((tpint_accepts_exactly_int64_literals
        ⟨.mk [] none, "", [], fun _ => 0, 0⟩).1 "12a" n).mpr ⟨h, hn⟩
      have h2 : (Builtins.tpint ⟨.mk [] none, "", [], fun _ => 0, 0⟩
          [Object.String "12a"]).1.isErrorValue = true := rfl
      rw [h1] at h2
      simp [Outcome.isErrorValue, Object.isError] at h2)

theorem dropWhile_eq_cons_head {p : Char → Bool} :
    ∀ (s : List Char) (c : Char) (cs : List Char), s.dropWhile p = c :: cs → p c = false := by
  intro s
  induction s with
  | nil => intro c cs h; simp at h
  | cons a t ih =>
    intro c cs h
    by_cases ha : p a
    · rw [List.dropWhile_cons_of_pos ha] at h
      exact ih c cs h
    · rw [List.dropWhile_cons_of_neg ha] at h
      simp only [List.cons.injEq] at h
      rw [← h.1]
      simpa using ha

theorem length_dropWhile_le (p : Char → Bool) (s : List Char) :
    (s.dropWhile p).length ≤ s.length :=
  (List.dropWhile_sublist p).length_le

theorem maximalRunsUpTo_fuel : ∀ (k1 k2 : Nat) (s : List Char),
    s.length < k1 → s.length < k2 → maximalRunsUpTo k1 s = maximalRunsUpTo k2 s := by
  intro k1
  induction k1 with
  | zero => intro k2 s h; omega
  | succ k ih =>
    intro k2 s h1 h2
    obtain ⟨k', rfl⟩ : ∃ k', k2 = k' + 1 := ⟨k2 - 1, by omega⟩
    simp only [maximalRunsUpTo]
    rcases hd : s.dropWhile isWhitespace with _ | ⟨c, cs⟩
    · rfl
    · have hc := dropWhile_eq_cons_head s c cs hd
      have hlen : (c :: cs).length ≤ s.length := by
        rw [← hd]; exact length_dropWhile_le _ _
      have hrest : ((c :: cs).dropWhile (fun x => !isWhitespace x)).length ≤ cs.length := by
        rw [List.dropWhile_cons_of_pos (by simp [hc])]
        exact length_dropWhile_le _ _
      simp only [List.length_cons] at hlen
      simp only [List.cons.injEq, true_and]
      exact ih k' _ (by omega) (by omega)

theorem maximalRuns_nil : maximalRuns [] = [] := rfl

theorem maximalRunsUpTo_succ (k : Nat) (s : List Char) :
    maximalRunsUpTo (k + 1) s =
      match s.dropWhile isWhitespace with
      | [] => []
      | c :: cs =>
        (c :: cs).takeWhile (fun x => !isWhitespace x) ::
          maximalRunsUpTo k ((c :: cs).dropWhile (fun x => !isWhitespace x)) := rfl

theorem maximalRuns_cons_space (c : Char) (cs : List Char) (h : isWhitespace c = true) :
    maximalRuns (c :: cs) = maximalRuns cs := by
  unfold maximalRuns
  rw [maximalRunsUpTo_fuel (cs.length + 1) ((c :: cs).length + 1) cs (by simp)
    (by simp only [List.length_cons]; omega)]
  rw [maximalRunsUpTo_succ, maximalRunsUpTo_succ, List.dropWhile_cons_of_pos h]

theorem maximalRuns_cons_other (c : Char) (cs : List Char) (h : isWhitespace c = false) :
    maximalRuns (c :: cs) =
      (c :: cs.takeWhile (fun x => !isWhitespace x)) ::
        maximalRuns (cs.dropWhile (fun x => !isWhitespace x)) := by
  unfold maximalRuns
  have hlen := length_dropWhile_le (fun x => !isWhitespace x) cs
  have hT : (c :: cs).takeWhile (fun x => !isWhitespace x)
      = c :: cs.takeWhile (fun x => !isWhitespace x) := by
    simp [List.takeWhile_cons, h]
  have hD : (c :: cs).dropWhile (fun x => !isWhitespace x)
      = cs.dropWhile (fun x => !isWhitespace x) := by
    simp [List.dropWhile_cons, h]
  rw [maximalRunsUpTo_succ, List.dropWhile_cons_of_neg (by simp [h] : ¬ isWhitespace c = true)]
  simp only [hT, hD]
  rw [maximalRunsUpTo_fuel _ ((List.dropWhile (fun x => !isWhitespace x) cs).length + 1) _
    (by simp only [List.length_cons]; omega) (by omega)]

theorem sliceOf_pre (pre rest : List Char) (st : Int) (h0 : 0 ≤ st) (h1 : st ≤ pre.length) :
    sliceOf (pre ++ rest) ⟨st, pre.length⟩ = pre.drop st.toNat := by
  have hst : st.toNat ≤ pre.length := by omega
  simp only [sliceOf, Int.toNat_ofNat]
  rw [List.drop_append_of_le_length hst, List.take_append_of_le_length (by simp)]
  apply List.take_of_length_le
  simp

theorem fieldSlices_neg (s : List Char) (spans : List Span) (start : Int) (h : start < 0) :
    fieldSlices s spans start = spans.map (sliceOf s) := by
  simp [fieldSlices, not_le.mpr h]

theorem fieldSlices_nonneg (s : List Char) (spans : List Span) (start : Int) (h : 0 ≤ start) :
    fieldSlices s spans start = spans.map (sliceOf s) ++ [sliceOf s ⟨start, s.length⟩] := by
  simp [fieldSlices, h]

theorem fieldsFuncLoop_spec : ∀ (rest pre : List Char) (spans : List Span) (start : Int),
    (start < 0 →
      fieldSlices (pre ++ rest) (fieldsFuncLoop IsSpace rest pre.length start spans).1
          (fieldsFuncLoop IsSpace rest pre.length start spans).2
        = spans.map (sliceOf (pre ++ rest)) ++ maximalRuns rest) ∧
    (0 ≤ start → start ≤ pre.length →
      fieldSlices (pre ++ rest) (fieldsFuncLoop IsSpace rest pre.length start spans).1
          (fieldsFuncLoop IsSpace rest pre.length start spans).2
        = spans.map (sliceOf (pre ++ rest)) ++
            (pre.drop start.toNat ++ rest.takeWhile (fun x => !isWhitespace x)) ::
              maximalRuns (rest.dropWhile (fun x => !isWhitespace x))) := by
  intro rest
  induction rest with
  | nil =>
    intro pre spans start
    constructor
    · intro h
      simp only [fieldsFuncLoop, fieldSlices_neg _ _ _ h, maximalRuns_nil, List.append_nil]
    · intro h0 h1
      have := sliceOf_pre pre [] start h0 h1
      rw [List.append_nil] at this
      simp only [fieldsFuncLoop, fieldSlices_nonneg _ _ _ h0, List.append_nil, this,
        maximalRuns_nil, List.takeWhile_nil, List.dropWhile_nil]
  | cons r rest ih =>
    intro pre spans start
    have hs : pre ++ r :: rest = (pre ++ [r]) ++ rest := by simp
    have hpos : ((pre.length : Int) + 1) = ((pre ++ [r]).length : Int) := by simp
    by_cases hr : IsSpace r = true
    · have hw : isWhitespace r = true := hr
      constructor
      · intro h
        simp only [fieldsFuncLoop, hr, if_true, ge_iff_le, not_le.mpr h, if_false]
        rw [hs, hpos, (ih (pre ++ [r]) spans start).1 h, maximalRuns_cons_space r rest hw]
      · intro h0 h1
        simp only [fieldsFuncLoop, hr, if_true, ge_iff_le, h0]
        rw [hs, hpos, (ih (pre ++ [r]) (spans ++ [Span.mk start pre.length]) (-start - 1)).1
          (by omega)]
        rw [← hs, List.map_append, List.map_singleton, sliceOf_pre pre (r :: rest) start h0 h1]
        have hT : (r :: rest).takeWhile (fun x => !isWhitespace x) = [] := by
          simp [List.takeWhile_cons, hw]
        have hD : (r :: rest).dropWhile (fun x => !isWhitespace x) = r :: rest := by
          simp [List.dropWhile_cons, hw]
        rw [hT, hD, maximalRuns_cons_space r rest hw]
        simp
    · have hw : isWhitespace r = false := by simpa [isWhitespace] using hr
      have hr2 : IsSpace r = false := hw
      have hT : (r :: rest).takeWhile (fun x => !isWhitespace x)
          = r :: rest.takeWhile (fun x => !isWhitespace x) := by
        simp [List.takeWhile_cons, hw]
      have hD : (r :: rest).dropWhile (fun x => !isWhitespace x)
          = rest.dropWhile (fun x => !isWhitespace x) := by
        simp [List.dropWhile_cons, hw]
      constructor
      · intro h
        simp only [fieldsFuncLoop, hr2, Bool.false_eq_true, if_false, h, if_true]
        rw [hs, hpos, (ih (pre ++ [r]) spans pre.length).2 (by omega) (by simp),
          maximalRuns_cons_other r rest hw]
        simp
      · intro h0 h1
        simp only [fieldsFuncLoop, hr2, Bool.false_eq_true, if_false, not_lt.mpr h0]
        rw [hs, hpos, (ih (pre ++ [r]) spans start).2 h0 (by simp; omega), hT, hD,
          List.drop_append_of_le_length (by omega)]
        simp

theorem FieldsFunc_IsSpace (s : List Char) : FieldsFunc s IsSpace = maximalRuns s := by
  have := (fieldsFuncLoop_spec s [] [] (-1)).1 (by decide)
  simpa [FieldsFunc] using this


theorem Fields_eq (s : String) : Fields s = (maximalRuns s.data).map String.mk := by
  unfold Fields
  rw [FieldsFunc_IsSpace]

theorem maximalRuns_of_all_space (s : List Char) (h : ∀ c ∈ s, isWhitespace c = true) :
    maximalRuns s = [] := by
  unfold maximalRuns
  rw [maximalRunsUpTo_succ, List.dropWhile_eq_nil_iff.mpr h]

theorem maximalRunsUpTo_run_props : ∀ (k : Nat) (s r : List Char),
    r ∈ maximalRunsUpTo k s → r ≠ [] ∧ ∀ c ∈ r, isWhitespace c = false := by
  intro k
  induction k with
  | zero => intro s r h; simp [maximalRunsUpTo] at h
  | succ k ih =>
    intro s r h
    rw [maximalRunsUpTo_succ] at h
    rcases hd : s.dropWhile isWhitespace with _ | ⟨c, cs⟩
    · rw [hd] at h; simp at h
    · rw [hd] at h
      have hc := dropWhile_eq_cons_head s c cs hd
      simp only [List.mem_cons] at h
      rcases h with rfl | h
      · constructor
        · simp [List.takeWhile_cons, hc]
        · intro x hx
          have := List.mem_takeWhile_imp hx
          simpa using this
      · exact ih _ r h

theorem maximalRuns_run_props (s r : List Char) (h : r ∈ maximalRuns s) :
    r ≠ [] ∧ ∀ c ∈ r, isWhitespace c = false :=
  maximalRunsUpTo_run_props _ s r h

/-- C9: with `fields` the maximal runs of non-whitespace characters of `s`, in
order, `sepr(s, i)` returns `String(fields[i])` when `0 <= i < length(fields)`
and an Error value when `i` is negative or `i >= length(fields)`; when `s` is
empty or all whitespace there is no field, so every index gives an Error. -/
theorem sepr_selects_field (w : World) (s : String) (i : Int) :
    (∀ h : 0 ≤ i ∧ i < (maximalRuns s.data).length,
      Builtins.sepr w [Object.String s, Object.Integer i] =
        (Outcome.ret (Object.String
          (String.mk ((maximalRuns s.data).get ⟨i.toNat, by omega⟩))), w)) ∧
    (i < 0 ∨ i ≥ (maximalRuns s.data).length →
      (Builtins.sepr w [Object.String s, Object.Integer i]).1.isErrorValue = true ∧
      (Builtins.sepr w [Object.String s, Object.Integer i]).2 = w) ∧
    ((∀ c ∈ s.data, isWhitespace c = true) →
      (maximalRuns s.data).length = 0 ∧
      (Builtins.sepr w [Object.String s, Object.Integer i]).1.isErrorValue = true) := by
  have herr : (i < 0 ∨ i ≥ (maximalRuns s.data).length) →
      (Builtins.sepr w [Object.String s, Object.Integer i]).1.isErrorValue = true ∧
      (Builtins.sepr w [Object.String s, Object.Integer i]).2 = w := by
    intro h
    simp only [Builtins.sepr, Fields_eq, List.length_map]
    rw [if_pos h]
    exact ⟨rfl, rfl⟩
  refine ⟨?_, herr, ?_⟩
  · rintro ⟨h0, h1⟩
    have hlt : i.toNat < (maximalRuns s.data).length := by omega
    simp only [Builtins.sepr, Fields_eq, List.length_map]
    rw [if_neg (by omega)]
    simp [List.getElem?_eq_getElem hlt]
  · intro h
    have hnil := maximalRuns_of_all_space s.data h
    refine ⟨by rw [hnil]; rfl, (herr ?_).1⟩
    rw [hnil]
    simp only [List.length_nil, Nat.cast_zero]
    omega

/-- C9 on the text "  foo  bar ": index 1 gives "bar", index 2 an Error. -/
theorem sepr_selects_field_witness :
    Builtins.sepr ⟨.mk [] none, "", [], fun _ => 0, 0⟩
        [Object.String "  foo  bar ", Object.Integer 1]
      = (Outcome.ret (Object.String "bar"), ⟨.mk [] none, "", [], fun _ => 0, 0⟩) ∧
    (Builtins.sepr ⟨.mk [] none, "", [], fun _ => 0, 0⟩
        [Object.String "  foo  bar ", Object.Integer 2]).1.isErrorValue = true :=
  ⟨(sepr_selects_field ⟨.mk [] none, "", [], fun _ => 0, 0⟩ "  foo  bar " 1).1
      ⟨by decide, by decide⟩,
   ((sepr_selects_field ⟨.mk [] none, "", [], fun _ => 0, 0⟩ "  foo  bar " 2).2.1
      (Or.inr (by decide))).1⟩

theorem dropWhile_eq_self_of_head {p : Char → Bool} (l : List Char)
    (h : ∀ c, l.head? = some c → p c = false) : l.dropWhile p = l := by
  cases l with
  | nil => rfl
  | cons a t =>
    have := h a rfl
    simp [List.dropWhile_cons, this]

theorem TrimSpace_data (line : String) :
    (TrimSpace line).data = TrimRightFunc (TrimLeftFunc line.data IsSpace) IsSpace := rfl

theorem IsTrimOf_unique (line t : List Char) (h : IsTrimOf line t) :
    t = TrimRightFunc (TrimLeftFunc line IsSpace) IsSpace := by
  obtain ⟨front, back, rfl, hf, hb, hhead, hlast⟩ := h
  unfold isWhitespace at hf hb hhead hlast
  cases t with
  | nil =>
    have hall : ∀ c ∈ front ++ [] ++ back, IsSpace c = true := by
      intro c hc
      simp only [List.append_nil, List.mem_append] at hc
      rcases hc with hc | hc
      · exact hf c hc
      · exact hb c hc
    unfold TrimLeftFunc TrimRightFunc
    rw [List.dropWhile_eq_nil_iff.mpr hall]
    rfl
  | cons a t' =>
    have ha := hhead a rfl
    have h1 : TrimLeftFunc (front ++ a :: t' ++ back) IsSpace = a :: t' ++ back := by
      unfold TrimLeftFunc
      rw [List.append_assoc, List.dropWhile_append_of_pos hf]
      simp [List.dropWhile_cons, ha]
    rw [h1]
    unfold TrimRightFunc
    rw [List.reverse_append, List.dropWhile_append_of_pos (by simpa using hb)]
    rw [dropWhile_eq_self_of_head (a :: t').reverse (by
      intro c hc
      rw [List.head?_reverse] at hc
      exact hlast c hc)]
    simp

theorem takeWhile_append_dropWhile_eq (p : Char → Bool) (l : List Char) :
    l.takeWhile p ++ l.dropWhile p = l := List.takeWhile_append_dropWhile p l

theorem head_dropWhile_false (p : Char → Bool) (l : List Char) (c : Char)
    (h : (l.dropWhile p).head? = some c) : p c = false := by
  rcases hd : l.dropWhile p with _ | ⟨a, t⟩
  · rw [hd] at h; simp at h
  · rw [hd] at h
    simp only [List.head?_cons, Option.some.injEq] at h
    subst h
    exact dropWhile_eq_cons_head l a t hd

theorem dropWhile_append_singleton (p : Char → Bool) (a : Char) (ha : p a = false) :
    ∀ l : List Char, ∃ x, (l ++ [a]).dropWhile p = x ++ [a] := by
  intro l
  induction l with
  | nil => exact ⟨[], by simp [List.dropWhile_cons, ha]⟩
  | cons b l ih =>
    by_cases hb : p b = true
    · obtain ⟨x, hx⟩ := ih
      exact ⟨x, by rw [List.cons_append, List.dropWhile_cons_of_pos hb, hx]⟩
    · exact ⟨b :: l, by rw [List.cons_append, List.dropWhile_cons_of_neg hb]⟩

theorem IsTrimOf_TrimSpace (line : List Char) :
    IsTrimOf line (TrimRightFunc (TrimLeftFunc line IsSpace) IsSpace) := by
  unfold TrimRightFunc TrimLeftFunc IsTrimOf isWhitespace
  refine ⟨line.takeWhile IsSpace,
    (((line.dropWhile IsSpace).reverse).takeWhile IsSpace).reverse, ?_, ?_, ?_, ?_, ?_⟩
  · rw [List.append_assoc, ← List.reverse_append, List.takeWhile_append_dropWhile,
      List.reverse_reverse, List.takeWhile_append_dropWhile]
  · intro c hc
    exact List.mem_takeWhile_imp hc
  · intro c hc
    rw [List.mem_reverse] at hc
    exact List.mem_takeWhile_imp hc
  · intro c hc
    rcases hd : line.dropWhile IsSpace with _ | ⟨a, t⟩
    · rw [hd] at hc
      simp at hc
    · have ha : IsSpace a = false := dropWhile_eq_cons_head line a t hd
      rw [hd] at hc
      obtain ⟨x, hx⟩ := dropWhile_append_singleton IsSpace a ha t.reverse
      rw [List.reverse_cons, hx] at hc
      simp only [List.reverse_append, List.reverse_cons, List.reverse_nil, List.nil_append,
        List.singleton_append, List.head?_cons, Option.some.injEq] at hc
      rw [← hc]
      exact ha
  · intro c hc
    rw [List.getLast?_reverse] at hc
    exact head_dropWhile_false _ _ c hc


theorem Environment_Get_Set (env : Environment) (name : String) (val : Object) :
    (env.Set name val).Get name = some val := by
  rcases env with ⟨store, _ | outer⟩ <;> simp [Environment.Set, Environment.Get, storeGet]

/-- C10: when `read(prompt, varName)` gets two Strings and a line is read
successfully, then with `t` the line with the surrounding whitespace trimmed
(there is exactly one such text): the environment handed to the native binds
`varName` to `Integer(n)` if `t` is a base-10 literal of a 64-bit integer `n`
and to `String(t)` otherwise; what has been printed is the prompt; and the
call returns the no-output sentinel, not a runtime value. -/
theorem read_binds_trimmed_input (w : World) (prompt varName line : String)
    (pending : List String) (hread : ReadString "" w.stdin = (line, none, pending)) :
    ∃ (t : String) (value : Object),
      IsTrimOf line.data t.data ∧
      (∀ t2 : String, IsTrimOf line.data t2.data → t2 = t) ∧
      (∀ n, IntLiteral t n ∧ isInt64 n → value = Object.Integer n) ∧
      ((¬ ∃ n, IntLiteral t n ∧ isInt64 n) → value = Object.String t) ∧
      Builtins.read w [Object.String prompt, Object.String varName] =
        (Outcome.retNil,
          { env := w.env.Set varName value, stdout := w.stdout ++ prompt, stdin := pending,
            randDraws := w.randDraws, randPos := w.randPos }) ∧
      (w.env.Set varName value).Get varName = some value := by
  refine ⟨TrimSpace line,
    (match ParseInt (stringBytes (TrimSpace line)) with
      | (intVal, none) => Object.Integer intVal
      | (_, some _) => Object.String (TrimSpace line)),
    IsTrimOf_TrimSpace line.data, ?_, ?_, ?_, ?_, Environment_Get_Set _ _ _⟩
  · intro t2 h2
    apply String.ext
    rw [IsTrimOf_unique _ _ h2]
    rfl
  · rintro n hn
    rw [(ParseInt_stringBytes (TrimSpace line) n).mpr hn]
  · intro hno
    rcases hp : ParseInt (stringBytes (TrimSpace line)) with ⟨v, _ | e⟩
    · exact absurd ⟨v, (ParseInt_stringBytes (TrimSpace line) v).mp hp⟩ hno
    · rfl
  · simp only [Builtins.read, hread]

/-- C10 on the input line "  42 \n" with prompt "n? " and name "x": the call
returns the no-output sentinel, "n? " has been printed, and `x` is bound to
`Integer(42)`. -/
theorem read_binds_trimmed_input_witness :
    (Builtins.read ⟨.mk [] none, "", ["  42 \n"], fun _ => 0, 0⟩
        [Object.String "n? ", Object.String "x"]).1 = Outcome.retNil ∧
    (Builtins.read ⟨.mk [] none, "", ["  42 \n"], fun _ => 0, 0⟩
        [Object.String "n? ", Object.String "x"]).2.stdout = "n? " ∧
    (Builtins.read ⟨.mk [] none, "", ["  42 \n"], fun _ => 0, 0⟩
        [Object.String "n? ", Object.String "x"]).2.env.Get "x" = some (Object.Integer 42) := by
  obtain ⟨t, value, _, huniq, hint, _, hres, hget⟩ :=
    read_binds_trimmed_input ⟨.mk [] none, "", ["  42 \n"], fun _ => 0, 0⟩ "n? " "x"
      "  42 \n" [] rfl
  have ht : "42" = t :=
    huniq "42" ⟨"  ".data, " \n".data, rfl, by decide, by decide,
      fun c hc => by simp at hc; subst hc; rfl,
      fun c hc => by simp at hc; subst hc; rfl⟩
  subst ht
  have hv := hint 42 ⟨⟨[], "42".data, rfl, Or.inl rfl, by decide, by decide, by decide⟩,
    by decide⟩
  subst hv
  rw [hres]
  exact ⟨rfl, rfl, hget⟩

theorem string_join_foldl (l : List String) (acc : String) :
    l.foldl (fun r s => r ++ s) acc = acc ++ String.join l := by
  induction l generalizing acc with
  | nil => simp [String.join]
  | cons a t ih =>
    simp only [List.foldl_cons, String.join]
    rw [ih, ih ("" ++ a), String.empty_append, String.append_assoc]

theorem write_foldl (Inspect : Object → String) (args : List Object) (w : World) :
    args.foldl (fun w arg => { w with stdout := w.stdout ++ Inspect arg }) w =
      { w with stdout := w.stdout ++ String.join (args.map Inspect) } := by
  induction args generalizing w with
  | nil => simp [String.join]
  | cons a t ih =>
    simp only [List.foldl_cons, List.map_cons]
    rw [ih]
    simp only [String.join, List.foldl_cons, String.empty_append]
    rw [string_join_foldl (t.map Inspect) (Inspect a), String.append_assoc]
    rfl

/-- C11: for every argument list, `write(args...)` prints the concatenation of
the textual forms of the arguments in order and then one newline, touches
nothing else of the world, and returns the no-output sentinel, which is not
an Error. -/
theorem write_prints_forms_then_newline (Inspect : Object → String) (w : World)
    (args : List Object) :
    Builtins.write Inspect w args =
      (Outcome.retNil,
        { w with stdout := w.stdout ++ String.join (args.map Inspect) ++ "\n" }) ∧
    (Builtins.write Inspect w args).1.isErrorValue = false ∧
    Builtins.write Inspect w [] = (Outcome.retNil, { w with stdout := w.stdout ++ "\n" }) := by
  refine ⟨?_, rfl, ?_⟩
  · simp only [Builtins.write, write_foldl]
  · simp [Builtins.write]

/-- C14 (counterexample): `tp` answers "null" for the native function `cat`
as it does for Null, two values of different kinds; so equal answers of `tp`
do not force equal kinds. -/
theorem tp_same_name_different_kind :
    Builtins.tp exampleConsole [Object.Builtin "cat"]
      = (Outcome.ret (Object.String "null"), exampleConsole) ∧
    Builtins.tp exampleConsole [Object.Null]
      = (Outcome.ret (Object.String "null"), exampleConsole) ∧
    (Object.Builtin "cat").Type ≠ Object.Null.Type ∧
    ¬ (∀ (w : World) (x y : Object) (s : String),
        Builtins.tp w [x] = (Outcome.ret (Object.String s), w) →
        Builtins.tp w [y] = (Outcome.ret (Object.String s), w) → x.Type = y.Type) := by
  refine ⟨rfl, rfl, by decide, ?_⟩
  intro h
  have := h exampleConsole (Object.Builtin "cat") Object.Null "null" rfl rfl
  exact absurd this (by decide)

/-- C14 (amended): if `tp(x)` and `tp(y)` return the same String and it is not
"null", then `x` and `y` have the same runtime kind; and `tp(x)` returns
"null" exactly when `x` is Null, a native function, an Error or a return
signal. -/
theorem tp_identifies_named_kinds (w : World) (x y : Object) (s : String)
    (hx : Builtins.tp w [x] = (Outcome.ret (Object.String s), w))
    (hy : Builtins.tp w [y] = (Outcome.ret (Object.String s), w)) :
    (s ≠ "null" → x.Type = y.Type) ∧
    (s = "null" ↔
      x.Type = ObjectType.NULL_OBJ ∨ x.Type = ObjectType.BUILTIN_OBJ ∨
      x.Type = ObjectType.ERROR_OBJ ∨ x.Type = ObjectType.RETURN_VALUE_OBJ) := by
  constructor
  · intro hs
    cases x <;> cases y <;>
      simp only [Builtins.tp, Prod.mk.injEq, Outcome.ret.injEq, Object.String.injEq,
        and_true] at hx hy <;>
      first
        | rfl
        | (subst hx; exact absurd rfl hs)
        | (subst hy; exact absurd rfl hs)
        | (subst hx; exact absurd hy (by decide))
  · cases x <;>
      simp only [Builtins.tp, Prod.mk.injEq, Outcome.ret.injEq, Object.String.injEq,
        and_true] at hx <;>
      subst hx <;> simp [Object.Type]

/-- C14 (amended) on `tp(1)` and `tp(2)`: both answer "integer" and both are
Integers. -/
theorem tp_identifies_named_kinds_witness :
    (Object.Integer 1).Type = (Object.Integer 2).Type :=
  (tp_identifies_named_kinds exampleConsole (Object.Integer 1) (Object.Integer 2) "integer"
    rfl rfl).1 (by decide)

theorem lookupBuiltin_builtins (Inspect : Object → String) (name : String)
    (fn : BuiltinFunction) (h : lookupBuiltin (builtins Inspect) name = some fn) :
    (name = "read" ∧ fn = Builtins.read) ∨ (name = "tpint" ∧ fn = Builtins.tpint) ∨
    (name = "rand" ∧ fn = Builtins.rand) ∨ (name = "sepr" ∧ fn = Builtins.sepr) ∨
    (name = "tp" ∧ fn = Builtins.tp) ∨ (name = "cat" ∧ fn = Builtins.cat) ∨
    (name = "first" ∧ fn = Builtins.first) ∨ (name = "last" ∧ fn = Builtins.last) ∨
    (name = "add" ∧ fn = Builtins.add) ∨ (name = "write" ∧ fn = Builtins.write Inspect) := by
  simp only [builtins, lookupBuiltin] at h
  split_ifs at h with h1 h2 h3 h4 h5 h6 h7 h8 h9 h10 <;>
    simp only [Option.some.injEq, reduceCtorEq] at h <;> subst h <;> simp_all

theorem wrong_arity_two (fn : BuiltinFunction) (w : World) (args : List Object)
    (hfn : fn = Builtins.read ∨ fn = Builtins.rand ∨ fn = Builtins.sepr ∨ fn = Builtins.add)
    (hlen : args.length ≠ 2) :
    fn w args =
      (Outcome.ret (newError "Wrong number of arguments. Got %d, expected 2"
        [.int args.length]), w) := by
  rcases hfn with rfl | rfl | rfl | rfl <;>
    (rcases args with _ | ⟨a, _ | ⟨b, _ | ⟨c, t⟩⟩⟩ <;> first
      | exact absurd rfl hlen
      | rfl)

theorem wrong_arity_one (fn : BuiltinFunction) (w : World) (args : List Object)
    (hfn : fn = Builtins.tpint ∨ fn = Builtins.tp ∨ fn = Builtins.cat ∨
      fn = Builtins.first ∨ fn = Builtins.last)
    (hlen : args.length ≠ 1) :
    fn w args =
      (Outcome.ret (newError "Wrong number of arguments. Got %d, expected 1"
        [.int args.length]), w) := by
  rcases hfn with rfl | rfl | rfl | rfl | rfl <;>
    (rcases args with _ | ⟨a, _ | ⟨b, t⟩⟩ <;> first
      | exact absurd rfl hlen
      | rfl)

/-- C15: a native of fixed arity (read 2, tpint 1, rand 2, sepr 2, tp 1,
cat 1, first 1, last 1, add 2), called with an argument list whose length
differs from that arity, returns an Error value and leaves the world as it
was (nothing printed, nothing read, no binding made, no draw); the outcome is
the same for every argument list of that length, so no argument is looked
at. -/
theorem wrong_arity_is_error (Inspect : Object → String) (name : String) (arity : Nat)
    (fn : BuiltinFunction) (w : World) (args : List Object)
    (harity : (name, arity) ∈ fixedArity)
    (hfn : lookupBuiltin (builtins Inspect) name = some fn)
    (hlen : args.length ≠ arity) :
    (fn w args).1.isErrorValue = true ∧
    (fn w args).2 = w ∧
    (∀ args2 : List Object, args2.length = args.length → fn w args2 = fn w args) := by
  have hcase : (arity = 2 ∧ (fn = Builtins.read ∨ fn = Builtins.rand ∨ fn = Builtins.sepr ∨
        fn = Builtins.add)) ∨
      (arity = 1 ∧ (fn = Builtins.tpint ∨ fn = Builtins.tp ∨ fn = Builtins.cat ∨
        fn = Builtins.first ∨ fn = Builtins.last)) := by
    have hl := lookupBuiltin_builtins Inspect name fn hfn
    simp only [fixedArity, List.mem_cons, Prod.mk.injEq, List.mem_nil_iff, or_false] at harity
    rcases harity with h | h | h | h | h | h | h | h | h <;>
      (obtain ⟨hname, hnum⟩ := h; subst hname; subst hnum; simp at hl; simp [hl])
  rcases hcase with ⟨rfl, h2⟩ | ⟨rfl, h1⟩
  · refine ⟨?_, ?_, ?_⟩
    · rw [wrong_arity_two fn w args h2 hlen]; rfl
    · rw [wrong_arity_two fn w args h2 hlen]
    · intro args2 h
      rw [wrong_arity_two fn w args h2 hlen, wrong_arity_two fn w args2 h2 (by omega), h]
  · refine ⟨?_, ?_, ?_⟩
    · rw [wrong_arity_one fn w args h1 hlen]; rfl
    · rw [wrong_arity_one fn w args h1 hlen]
    · intro args2 h
      rw [wrong_arity_one fn w args h1 hlen, wrong_arity_one fn w args2 h1 (by omega), h]

/-- C15 on `rand()` and on `first(1, 2)`: each is an Error and the world is as
before. -/
theorem wrong_arity_is_error_witness :
    (Builtins.rand exampleConsole []).1.isErrorValue = true ∧
    (Builtins.first exampleConsole [Object.Integer 1, Object.Integer 2]).1.isErrorValue
      = true :=
  ⟨(wrong_arity_is_error exampleInterpreter.Inspect "rand" 2 Builtins.rand exampleConsole []
      (by decide) rfl (by decide)).1,
   (wrong_arity_is_error exampleInterpreter.Inspect "first" 1 Builtins.first exampleConsole
      [Object.Integer 1, Object.Integer 2] (by decide) rfl (by decide)).1⟩

theorem mapLookup_mem (m : List (String × TokenType)) (key : String) (tok : TokenType)
    (h : mapLookup m key = some tok) : (key, tok) ∈ m := by
  induction m with
  | nil => simp [mapLookup] at h
  | cons kv rest ih =>
    obtain ⟨k, v⟩ := kv
    simp only [mapLookup] at h
    split_ifs at h with hk
    · simp only [Option.some.injEq] at h
      subst hk; subst h
      exact List.mem_cons_self _ _
    · exact List.mem_cons_of_mem _ (ih h)

theorem mapLookup_none (m : List (String × TokenType)) (key : String)
    (h : key ∉ m.map Prod.fst) : mapLookup m key = none := by
  induction m with
  | nil => rfl
  | cons kv rest ih =>
    obtain ⟨k, v⟩ := kv
    simp only [List.map_cons, List.mem_cons, not_or] at h
    simp only [mapLookup]
    rw [if_neg (fun hk => h.1 hk.symm)]
    exact ih h.2

/-- C16: the 31 token kind constants have pairwise different values; the
keyword table maps its seven spellings to seven different kinds, none of them
`IDENT`, `ILLEGAL`, `EOF`, `INT` or `STRING`; hence `LookupIdent(s)` is `IDENT`
exactly when `s` is not a keyword spelling. -/
theorem token_kinds_distinct :
    [ILLEGAL, EOF, IDENT, INT, ASSIGN, PLUS, COMMA, SEMICOLON, LPAREN, RPAREN, LBRACE, RBRACE,
      FUNCTION, LET, MINUS, BANG, ASTERISK, SLASH, LT, GT, RETURN, TRUE, FALSE, IF, ELSE, EQ,
      NOT_EQ, STRING, LBRACKET, RBRACKET, COLON].Nodup ∧
    [ILLEGAL, EOF, IDENT, INT, ASSIGN, PLUS, COMMA, SEMICOLON, LPAREN, RPAREN, LBRACE, RBRACE,
      FUNCTION, LET, MINUS, BANG, ASTERISK, SLASH, LT, GT, RETURN, TRUE, FALSE, IF, ELSE, EQ,
      NOT_EQ, STRING, LBRACKET, RBRACKET, COLON].length = 31 ∧
    keywords.length = 7 ∧
    (keywords.map Prod.fst).Nodup ∧
    (keywords.map Prod.snd).Nodup ∧
    (∀ tok ∈ keywords.map Prod.snd,
      tok ≠ IDENT ∧ tok ≠ ILLEGAL ∧ tok ≠ EOF ∧ tok ≠ INT ∧ tok ≠ STRING) ∧
    (∀ s : String, LookupIdent s = IDENT ↔ s ∉ keywords.map Prod.fst) := by
  have hkinds : ∀ tok ∈ keywords.map Prod.snd,
      tok ≠ IDENT ∧ tok ≠ ILLEGAL ∧ tok ≠ EOF ∧ tok ≠ INT ∧ tok ≠ STRING := by decide
  refine ⟨by decide, rfl, rfl, by decide, by decide, hkinds, ?_⟩
  intro s
  constructor
  · intro h hmem
    unfold LookupIdent at h
    rcases hl : mapLookup keywords s with _ | tok
    · obtain ⟨kv, hkv, rfl⟩ := List.mem_map.mp hmem
      have hfound : ∀ kv ∈ keywords, mapLookup keywords kv.1 ≠ none := by decide
      exact hfound kv hkv hl
    · rw [hl] at h
      simp only at h
      have hmem2 := mapLookup_mem keywords s tok hl
      have : tok ∈ keywords.map Prod.snd := List.mem_map.mpr ⟨(s, tok), hmem2, rfl⟩
      exact (hkinds tok this).1 h
  · intro h
    unfold LookupIdent
    rw [mapLookup_none keywords s h]

theorem Builtins_add_array (w : World) (es : List Object) (v : Object) :
    Builtins.add w [Object.Array es, v] = (Outcome.ret (Object.Array (es ++ [v])), w) := by
  have h0 := addStmts_eq [es.map some] ⟨0, es.length⟩ es v (by simp) rfl
    (by simp [SliceHeap.elems])
  have h1 : SliceHeap.elems ([es.map some] ++ [(es ++ [v]).map some])
      ⟨[es.map some].length, es.length + 1⟩ = (es ++ [v]).map some := by
    unfold SliceHeap.elems
    rw [heap_getD_new]
    exact List.take_of_length_le (by simp)
  simp only [Builtins.add, Object.Type, ne_eq, not_true_eq_false, if_false, h0, h1,
    allValues_map_some]

/-- C17: for every Array `arr` with elements `es` and every value `v`, with
`arr2` the Array that `add(arr, v)` returns: `last(arr2)` is `v`; `cat(arr2)`
is `cat(arr) + 1`; and `first(arr2)` is `first(arr)` when `arr` is non-empty
and `v` when `arr` is empty. -/
theorem array_natives_consistent (w : World) (es : List Object) (v : Object) :
    ∃ arr2 : Object,
      Builtins.add w [Object.Array es, v] = (Outcome.ret arr2, w) ∧
      Builtins.last w [arr2] = (Outcome.ret v, w) ∧
      (∃ n : Int, Builtins.cat w [Object.Array es] = (Outcome.ret (Object.Integer n), w) ∧
        Builtins.cat w [arr2] = (Outcome.ret (Object.Integer (n + 1)), w)) ∧
      (es ≠ [] → Builtins.first w [arr2] = Builtins.first w [Object.Array es]) ∧
      (es = [] → Builtins.first w [arr2] = (Outcome.ret v, w)) := by
  refine ⟨Object.Array (es ++ [v]), Builtins_add_array w es v, ?_, ⟨es.length, rfl, ?_⟩, ?_, ?_⟩
  · simp [Builtins.last, Object.Type, indexElem]
  · simp [Builtins.cat]
  · intro hne
    obtain ⟨e, t, rfl⟩ := List.exists_cons_of_ne_nil hne
    simp [Builtins.first, Object.Type, indexElem]
  · rintro rfl
    simp [Builtins.first, Object.Type, indexElem]

/-- C17 on `add([1, 2], 3)`: `last` gives 3, `cat` gives 3 after 2, `first`
gives 1 as before. -/
theorem array_natives_consistent_witness :
    Builtins.last exampleConsole
        [Object.Array [Object.Integer 1, Object.Integer 2, Object.Integer 3]]
      = (Outcome.ret (Object.Integer 3), exampleConsole) ∧
    Builtins.first exampleConsole
        [Object.Array [Object.Integer 1, Object.Integer 2, Object.Integer 3]]
      = Builtins.first exampleConsole [Object.Array [Object.Integer 1, Object.Integer 2]] := by
  obtain ⟨arr2, hadd, hlast, _, hfirst, _⟩ :=
    array_natives_consistent exampleConsole [Object.Integer 1, Object.Integer 2]
      (Object.Integer 3)
  rw [Builtins_add_array] at hadd
  simp only [Prod.mk.injEq, Outcome.ret.injEq, and_true] at hadd
  subst hadd
  exact ⟨hlast, hfirst (by simp)⟩

theorem maximalRunsUpTo_infix : ∀ (k : Nat) (s r : List Char),
    r ∈ maximalRunsUpTo k s → r <:+: s := by
  intro k
  induction k with
  | zero => intro s r h; simp [maximalRunsUpTo] at h
  | succ k ih =>
    intro s r h
    rw [maximalRunsUpTo_succ] at h
    have hsuf : s.dropWhile isWhitespace <:+ s := List.dropWhile_suffix _
    rcases hd : s.dropWhile isWhitespace with _ | ⟨c, cs⟩
    · rw [hd] at h; simp at h
    · rw [hd] at h hsuf
      simp only [List.mem_cons] at h
      rcases h with rfl | h
      · exact (List.takeWhile_prefix _).isInfix.trans hsuf.isInfix
      · exact ((ih _ r h).trans (List.dropWhile_suffix _).isInfix).trans hsuf.isInfix

/-- C18: whenever `sepr(s, i)` returns a String, that String is non-empty,
holds no whitespace character, and is a contiguous part of `s`. -/
theorem sepr_field_is_clean_substring (w w2 : World) (s : String) (i : Int) (p : String)
    (h : Builtins.sepr w [Object.String s, Object.Integer i]
      = (Outcome.ret (Object.String p), w2)) :
    p.data ≠ [] ∧ (∀ c ∈ p.data, isWhitespace c = false) ∧ p.data <:+: s.data := by
  simp only [Builtins.sepr, Fields_eq, List.length_map] at h
  split_ifs at h with hidx
  · simp [newError] at h
  · rcases hget : ((maximalRuns s.data).map String.mk)[i.toNat]? with _ | part
    · rw [hget] at h; simp at h
    · rw [hget] at h
      simp only [Prod.mk.injEq, Outcome.ret.injEq, Object.String.injEq] at h
      obtain ⟨rfl, _⟩ := h
      have hmem : part ∈ (maximalRuns s.data).map String.mk := List.getElem?_mem hget
      obtain ⟨r, hr, rfl⟩ := List.mem_map.mp hmem
      obtain ⟨hne, hws⟩ := maximalRuns_run_props s.data r hr
      exact ⟨hne, hws, maximalRunsUpTo_infix _ s.data r hr⟩

/-- C18 on `sepr("  foo  bar ", 1)`: the answer "bar" is non-empty, free of
whitespace and a part of the text. -/
theorem sepr_field_is_clean_substring_witness :
    "bar".data ≠ [] ∧ (∀ c ∈ "bar".data, isWhitespace c = false) ∧
      "bar".data <:+: "  foo  bar ".data :=
  sepr_field_is_clean_substring exampleConsole exampleConsole "  foo  bar " 1 "bar" rfl

theorem digitsValue_append (a b : List Char) :
    ∀ acc, digitsValue acc (a ++ b) = digitsValue (digitsValue acc a) b := by
  induction a with
  | nil => intro acc; rfl
  | cons c t ih => intro acc; exact ih _

theorem digitChar_decimal (k : Nat) (hk : k < 10) :
    isDecimalDigit (Nat.digitChar k) ∧ digitValue (Nat.digitChar k) = k := by
  interval_cases k <;> exact ⟨by decide, rfl⟩

theorem toDigitsCore_decimal : ∀ (fuel n : Nat) (ds : List Char), n < fuel →
    ∃ X : List Char, Nat.toDigitsCore 10 fuel n ds = X ++ ds ∧ X ≠ [] ∧
      (∀ c ∈ X, isDecimalDigit c) ∧ ∀ acc, digitsValue acc X = acc * 10 ^ X.length + n := by
  intro fuel
  induction fuel with
  | zero => intro n ds h; omega
  | succ fuel ih =>
    intro n ds hn
    have hd := digitChar_decimal (n % 10) (Nat.mod_lt _ (by decide))
    by_cases h0 : n / 10 = 0
    · refine ⟨[Nat.digitChar (n % 10)], ?_, by simp, ?_, ?_⟩
      · simp [Nat.toDigitsCore, h0]
      · intro c hc
        simp only [List.mem_singleton] at hc
        subst hc
        exact hd.1
      · intro acc
        simp only [digitsValue, hd.2, List.length_singleton, pow_one]
        omega
    · obtain ⟨X, hX, _, hXd, hXv⟩ := ih (n / 10) (Nat.digitChar (n % 10) :: ds) (by omega)
      refine ⟨X ++ [Nat.digitChar (n % 10)], ?_, by simp, ?_, ?_⟩
      · simp [Nat.toDigitsCore, h0, hX]
      · intro c hc
        simp only [List.mem_append, List.mem_singleton] at hc
        rcases hc with hc | rfl
        · exact hXd c hc
        · exact hd.1
      · intro acc
        rw [digitsValue_append, hXv]
        simp only [digitsValue, hd.2, List.length_append, List.length_singleton, pow_succ]
        have := Nat.div_add_mod n 10
        nlinarith [Nat.div_add_mod n 10]

theorem toDigits_decimal (m : Nat) :
    Nat.toDigits 10 m ≠ [] ∧ (∀ c ∈ Nat.toDigits 10 m, isDecimalDigit c) ∧
      digitsValue 0 (Nat.toDigits 10 m) = m := by
  obtain ⟨X, hX, hne, hd, hv⟩ := toDigitsCore_decimal (m + 1) m [] (by omega)
  have : Nat.toDigits 10 m = X := by
    unfold Nat.toDigits
    rw [hX, List.append_nil]
  rw [this]
  exact ⟨hne, hd, by rw [hv 0]; simp⟩

theorem IntLiteral_decimalRendering (n : Int) : IntLiteral (decimalRendering n) n := by
  unfold decimalRendering IntLiteral
  cases n with
  | ofNat m =>
    obtain ⟨hne, hd, hv⟩ := toDigits_decimal m
    refine ⟨[], Nat.toDigits 10 m, rfl, Or.inl rfl, hne, hd, ?_⟩
    simp [hv]
  | negSucc m =>
    obtain ⟨hne, hd, hv⟩ := toDigits_decimal (m + 1)
    refine ⟨['-'], Nat.toDigits 10 (m + 1), ?_, Or.inr (Or.inr rfl), hne, hd, ?_⟩
    · simp only [Int.repr, Nat.repr, String.data_append]
      rfl
    · simp only [if_true, hv]
      rfl

/-- C19: `read` and `tpint` recognise the same integers.  When a line is read
successfully and `t` is that line trimmed, the value `read` binds to the
target name is `Integer(n)` exactly when `tpint(String(t))` returns
`Integer(n)`, and is `String(t)` exactly when `tpint(String(t))` returns an
Error; and for every 64-bit signed integer `n`, `tpint` applied to the decimal
rendering of `n` returns `Integer(n)`. -/
theorem read_and_tpint_agree (w : World) (prompt varName line t : String)
    (pending : List String) (hread : ReadString "" w.stdin = (line, none, pending))
    (ht : IsTrimOf line.data t.data) :
    (∃ value : Object,
      (Builtins.read w [Object.String prompt, Object.String varName]).1 = Outcome.retNil ∧
      (Builtins.read w [Object.String prompt, Object.String varName]).2.env
        = w.env.Set varName value ∧
      (Builtins.read w [Object.String prompt, Object.String varName]).2.env.Get varName
        = some value ∧
      (∀ n : Int, value = Object.Integer n ↔
        Builtins.tpint w [Object.String t] = (Outcome.ret (Object.Integer n), w)) ∧
      (value = Object.String t ↔
        (Builtins.tpint w [Object.String t]).1.isErrorValue = true)) ∧
    (∀ n : Int, isInt64 n →
      Builtins.tpint w [Object.String (decimalRendering n)]
        = (Outcome.ret (Object.Integer n), w)) := by
  have htrim : TrimSpace line = t := by
    apply String.ext
    rw [IsTrimOf_unique _ _ ht]
    rfl
  constructor
  · rcases hp : ParseInt (stringBytes t) with ⟨v, _ | e⟩
    · refine ⟨Object.Integer v, ?_, ?_, ?_, ?_, ?_⟩
      · simp only [Builtins.read, hread]
      · simp only [Builtins.read, hread, htrim, hp]
      · simp only [Builtins.read, hread, htrim, hp]
        exact Environment_Get_Set _ _ _
      · intro n
        simp [Builtins.tpint, hp]
      · simp [Builtins.tpint, hp, Outcome.isErrorValue, Object.isError]
    · refine ⟨Object.String t, ?_, ?_, ?_, ?_, ?_⟩
      · simp only [Builtins.read, hread]
      · simp only [Builtins.read, hread, htrim, hp]
      · simp only [Builtins.read, hread, htrim, hp]
        exact Environment_Get_Set _ _ _
      · intro n
        simp [Builtins.tpint, hp, newError]
      · simp [Builtins.tpint, hp, newError, Outcome.isErrorValue, Object.isError]
  · intro n hn
    have hp := (ParseInt_stringBytes (decimalRendering n) n).mpr
      ⟨IntLiteral_decimalRendering n, hn⟩
    simp only [Builtins.tpint, hp]

/-- C19 on the input line " -42\n": `read` binds `Integer(-42)`, which is what
`tpint("-42")` returns. -/
theorem read_and_tpint_agree_witness :
    (Builtins.read ⟨.mk [] none, "", [" -42\n"], fun _ => 0, 0⟩
        [Object.String "n? ", Object.String "x"]).2.env.Get "x" = some (Object.Integer (-42)) ∧
    Builtins.tpint ⟨.mk [] none, "", [" -42\n"], fun _ => 0, 0⟩ [Object.String "-42"]
      = (Outcome.ret (Object.Integer (-42)), ⟨.mk [] none, "", [" -42\n"], fun _ => 0, 0⟩) ∧
    Builtins.tpint ⟨.mk [] none, "", [" -42\n"], fun _ => 0, 0⟩
        [Object.String (decimalRendering (-42))]
      = (Outcome.ret (Object.Integer (-42)), ⟨.mk [] none, "", [" -42\n"], fun _ => 0, 0⟩) := by
  obtain ⟨⟨value, _, _, hget, hint, _⟩, hdec⟩ :=
    read_and_tpint_agree ⟨.mk [] none, "", [" -42\n"], fun _ => 0, 0⟩ "n? " "x" " -42\n" "-42"
      [] rfl
      ⟨" ".data, "\n".data, rfl, by decide, by decide,
        fun c hc => by simp at hc; subst hc; rfl,
        fun c hc => by simp at hc; subst hc; rfl⟩
  have hv : value = Object.Integer (-42) := (hint (-42)).mpr rfl
  subst hv
  exact ⟨hget, rfl, hdec (-42) (by decide)⟩

end Squ1d
